import Mathlib

/-
Verification of the storage migration engine of `supabase-storage-migrator`.

The development shallowly embeds the engine implemented in
`src/routes/+page.svelte` (the typed Svelte component, which is the current
variant of the code) as pure Lean functions:

* `getMimeType` embeds the content-type resolver (`getMimeType`).
* `parseZipStructure` embeds the archive layout inferencer
  (`parseZipStructure`), over a flat list of `(path, isDir)` archive entries.
* The two migration flows (`migrateLiveProject` with its helper
  `migrateFilesFromBucket`, and `migrateFromZip`) are embedded as event-list
  builders (`liveRunEvents`, `zipRunEvents`).  Each mutation of the
  component's run-scoped state (`progress`, `totalItems`, `logs`, `error`,
  `success`) becomes one event; folding `applyEv` over the event list gives
  the final state, and `List.scanl` gives the full trace of observed states.
  Remote calls (bucket creation, object download/decompress/upload, listing)
  are modelled by oracles supplied as part of the run input: `none` means the
  call succeeded, `some msg` means it failed with error message `msg`.
* Log timestamps and the purely presentational fields (`isProcessing`,
  `currentOperation`, auto-scrolling) are not modelled; a log entry is its
  message together with its severity.  JavaScript string lowercasing is
  modelled on the ASCII range, which covers every key of the MIME table.
-/

/- Severity of a log entry, from the `LogEntry.type` union in the source. -/
inductive Sev where
  | info
  | success
  | warning
  | error
deriving DecidableEq, Repr

/- One entry of the append-only run log (`addLog`); timestamps omitted. -/
structure LogEntry where
  message : String
  sev : Sev
deriving DecidableEq, Repr

/- The run-scoped mutable state of the component: `progress`, `totalItems`,
`logs`, `error` and `success` (the two message strings are modelled as
`Option String`, `none` standing for the empty string). -/
structure St where
  progress : Nat
  totalItems : Nat
  logs : List LogEntry
  errMsg : Option String
  succMsg : Option String
deriving DecidableEq, Repr

/- The state right after `clearLogs()` at the start of a run. -/
def initSt : St := ⟨0, 0, [], none, none⟩

/- One primitive mutation of the run state.  `createCall` records an outgoing
`createBucket(name, { public: isPublic })` request (it does not change the
state; it is kept so that theorems can talk about what was requested). -/
inductive Ev where
  | log (m : String) (sv : Sev)
  | incProgress
  | setTotal (n : Nat)
  | addTotal (n : Nat)
  | setErr (m : String)
  | setSucc (m : String)
  | createCall (name : String) (isPublic : Bool)
deriving DecidableEq, Repr

def applyEv (s : St) : Ev → St
  | .log m sv => { s with logs := s.logs ++ [⟨m, sv⟩] }
  | .incProgress => { s with progress := s.progress + 1 }
  | .setTotal n => { s with totalItems := n }
  | .addTotal n => { s with totalItems := s.totalItems + n }
  | .setErr m => { s with errMsg := some m }
  | .setSucc m => { s with succMsg := some m }
  | .createCall _ _ => s

/- Final state after a list of events. -/
def runEvs (s : St) (es : List Ev) : St := es.foldl applyEv s

/- Every state observed during a run, in order (including the initial one). -/
def traceEvs (s : St) (es : List Ev) : List St := List.scanl applyEv s es

theorem runEvs_nil (s : St) : runEvs s [] = s := rfl

theorem runEvs_cons (s : St) (e : Ev) (es : List Ev) :
    runEvs s (e :: es) = runEvs (applyEv s e) es := rfl

theorem runEvs_append (s : St) (es₁ es₂ : List Ev) :
    runEvs s (es₁ ++ es₂) = runEvs (runEvs s es₁) es₂ := by
  unfold runEvs
  exact List.foldl_append applyEv s es₁ es₂

/- Content-type resolver: `getMimeType` from the source.  JavaScript
`filename.split('.')` is embedded as `splitDots` over the character list,
`.pop()` as `getLastD` (split never returns an empty array), and
`.toLowerCase()` as `jsToLowerCase` (ASCII lowering). -/
def lowerChar (c : Char) : Char :=
  if 65 ≤ c.toNat ∧ c.toNat ≤ 90 then Char.ofNat (c.toNat + 32) else c

def jsToLowerCase (l : List Char) : List Char := l.map lowerChar

def splitDots : List Char → List (List Char)
  | [] => [[]]
  | c :: cs =>
    match splitDots cs with
    | [] => [[]]
    | r :: rs => if c = '.' then [] :: r :: rs else (c :: r) :: rs

/- The static extension-to-MIME table from the source, in source order. -/
def mimeTable : List (String × String) :=
  [("jpg", "image/jpeg"), ("jpeg", "image/jpeg"), ("png", "image/png"),
   ("gif", "image/gif"), ("webp", "image/webp"), ("svg", "image/svg+xml"),
   ("ico", "image/x-icon"),
   ("pdf", "application/pdf"), ("doc", "application/msword"),
   ("docx", "application/vnd.openxmlformats-officedocument.wordprocessingml.document"),
   ("xls", "application/vnd.ms-excel"),
   ("xlsx", "application/vnd.openxmlformats-officedocument.spreadsheetml.sheet"),
   ("ppt", "application/vnd.ms-powerpoint"),
   ("pptx", "application/vnd.openxmlformats-officedocument.presentationml.presentation"),
   ("txt", "text/plain"), ("csv", "text/csv"), ("json", "application/json"),
   ("xml", "application/xml"), ("html", "text/html"), ("css", "text/css"),
   ("js", "application/javascript"),
   ("zip", "application/zip"), ("rar", "application/x-rar-compressed"),
   ("7z", "application/x-7z-compressed"), ("tar", "application/x-tar"),
   ("gz", "application/gzip"),
   ("mp3", "audio/mpeg"), ("wav", "audio/wav"), ("mp4", "video/mp4"),
   ("avi", "video/x-msvideo"), ("mov", "video/quicktime"),
   ("webm", "video/webm"),
   ("bin", "application/octet-stream")]

def lookupMime : List (String × String) → String → Option String
  | [], _ => none
  | (k, v) :: t, e => if k = e then some v else lookupMime t e

def getMimeType (filename : String) : String :=
  (lookupMime mimeTable
    (String.mk (jsToLowerCase ((splitDots filename.data).getLastD [])))).getD
    "application/octet-stream"

theorem lowerChar_eq_dot {c : Char} (h : lowerChar c = '.') : c = '.' := by
  unfold lowerChar at h
  split at h
  · exfalso
    have hv : (Char.ofNat (c.toNat + 32)).toNat = c.toNat + 32 := by
      have : (c.toNat + 32).isValidChar := by
        rename_i hr
        unfold Nat.isValidChar
        omega
      simp [Char.ofNat, this]
      unfold Char.ofNatAux
      rfl
    rw [h] at hv
    rename_i hr
    have : ('.' : Char).toNat = 46 := by decide
    omega
  · exact h

theorem lowerChar_dot_iff (c : Char) : lowerChar c = '.' ↔ c = '.' := by
  constructor
  · exact lowerChar_eq_dot
  · rintro rfl
    decide

theorem splitDots_ne_nil (l : List Char) : splitDots l ≠ [] := by
  cases l with
  | nil => simp [splitDots]
  | cons c cs =>
    unfold splitDots
    cases splitDots cs with
    | nil => simp
    | cons r rs =>
      by_cases h : c = '.' <;> simp [h]

theorem splitDots_lower (l : List Char) :
    splitDots (jsToLowerCase l) = (splitDots l).map jsToLowerCase := by
  induction l with
  | nil => rfl
  | cons c cs ih =>
    show splitDots (lowerChar c :: jsToLowerCase cs) = _
    unfold splitDots
    rw [ih]
    rcases hcs : splitDots cs with _ | ⟨r, rs⟩
    · exact absurd hcs (splitDots_ne_nil cs)
    · by_cases h : c = '.'
      · subst h
        have hl : lowerChar '.' = '.' := by decide
        simp [hl, jsToLowerCase]
      · have : ¬ lowerChar c = '.' := fun hq => h (lowerChar_eq_dot hq)
        simp [h, this, jsToLowerCase]

theorem getLastD_map_lower (l : List (List Char)) :
    (l.map jsToLowerCase).getLastD [] = jsToLowerCase (l.getLastD []) := by
  induction l with
  | nil => rfl
  | cons x xs ih =>
    cases xs with
    | nil => rfl
    | cons y ys =>
      simpa using ih

/- Case-insensitivity of the resolver: two file names that agree after
lowercasing resolve to the same MIME type. -/
theorem getMimeType_lower_congr {s₁ s₂ : String}
    (h : jsToLowerCase s₁.data = jsToLowerCase s₂.data) :
    getMimeType s₁ = getMimeType s₂ := by
  unfold getMimeType
  have key : ∀ d : List Char,
      jsToLowerCase ((splitDots d).getLastD []) =
      (splitDots (jsToLowerCase d)).getLastD [] := by
    intro d
    rw [splitDots_lower, getLastD_map_lower]
  rw [key s₁.data, key s₂.data, h]

/-- C5.  The content-type resolver is a total function `String → String`
(`getMimeType` above is a Lean function, hence total and deterministic);
lookup is case-insensitive: names equal up to ASCII lowercasing resolve the
same; and the three reference examples hold. -/
theorem c5_mime_resolver :
    (∀ s₁ s₂ : String, jsToLowerCase s₁.data = jsToLowerCase s₂.data →
      getMimeType s₁ = getMimeType s₂) ∧
    getMimeType "a.b.JPG" = "image/jpeg" ∧
    getMimeType "noext" = "application/octet-stream" ∧
    getMimeType "x.unknownext" = "application/octet-stream" := by
  refine ⟨fun s₁ s₂ h => getMimeType_lower_congr h, ?_, ?_, ?_⟩
  · decide
  · decide
  · decide

/-- Witness for C5: the case-insensitivity part applied at a concrete pair of
file names differing only in letter case. -/
theorem c5_mime_resolver_witness :
    getMimeType "photo.JpG" = getMimeType "photo.jpg" :=
  c5_mime_resolver.1 "photo.JpG" "photo.jpg" (by decide)

/- Archive layout inferencer: `parseZipStructure` from the source.  An archive
is a flat list of `(path, isDir)` entries in archive order.  JavaScript
`path.split('/')` is embedded as `splitSlash` over the character list, the
`.filter(p => p.length > 0)` as a filter of the nonempty chunks, and
`.join('/')` as `jsJoin "/"`. -/
def splitSlash : List Char → List (List Char)
  | [] => [[]]
  | c :: cs =>
    match splitSlash cs with
    | [] => [[]]
    | r :: rs => if c = '/' then [] :: r :: rs else (c :: r) :: rs

def jsSplitSlash (p : String) : List String :=
  ((splitSlash p.data).filter (fun seg => seg ≠ [])).map String.mk

def jsJoin (sep : String) : List String → String
  | [] => ""
  | [s] => s
  | s :: r :: rest => s ++ sep ++ jsJoin sep (r :: rest)

/- The `/^[a-z0-9]{20,}$/` test used to recognise a wrapping project-id
folder: every character lower-case alphanumeric and length at least 20. -/
def isLowerAlnum (c : Char) : Bool :=
  (97 ≤ c.toNat && c.toNat ≤ 122) || (48 ≤ c.toNat && c.toNat ≤ 57)

def looksLikeProjectId (s : String) : Bool :=
  decide (20 ≤ s.data.length) && s.data.all isLowerAlnum

/- First path segments of all non-directory entries (the `rootCandidates`
set; deduplicated because the source collects them in a `Set`). -/
def firstSegs (entries : List (String × Bool)) : List String :=
  ((entries.filter (fun e => !e.2)).filterMap
    (fun e => (jsSplitSlash e.1).head?))

/- The detected wrapping root folder: present exactly when the candidate set
has a single element that looks like a project id. -/
def rootFolderOf (entries : List (String × Bool)) : Option String :=
  match (firstSegs entries).dedup with
  | [c] => if looksLikeProjectId c then some c else none
  | _ => none

/- The `bucket_name/path...` rule: first segment is the bucket, remainder is
the relative path, fewer than two segments is skipped. -/
def splitTwoPlus : List String → Option (String × String)
  | b :: r :: rest => some (b, jsJoin "/" (r :: rest))
  | _ => none

/- Per-entry bucket/path split of the source: with a detected root folder,
an entry starting with that root keeps its second segment as bucket when at
least three segments exist; otherwise the direct rule applies. -/
def entrySplit (root : Option String) (parts : List String) :
    Option (String × String) :=
  match root, parts with
  | some r, p0 :: rest =>
    if p0 = r then
      match rest with
      | b :: rest2 => if rest2 = [] then none else some (b, jsJoin "/" rest2)
      | [] => none
    else splitTwoPlus (p0 :: rest)
  | _, ps => splitTwoPlus ps

/- `bucketFiles[bucketName].push(...)` on a plain JS object: insertion-order
association list, appending to the bucket's list, new buckets at the end. -/
def pushBucket : List (String × List String) → String → String →
    List (String × List String)
  | [], b, rel => [(b, [rel])]
  | (k, v) :: m, b, rel =>
    if k = b then (k, v ++ [rel]) :: m else (k, v) :: pushBucket m b rel

/- Association-list lookup (reading `bucketFiles[bucketName]`). -/
def lk : List (String × List String) → String → List String
  | [], _ => []
  | (k, v) :: m, b => if k = b then v else lk m b

def parseStep (root : Option String) (m : List (String × List String))
    (e : String × Bool) : List (String × List String) :=
  if e.2 then m
  else
    match entrySplit root (jsSplitSlash e.1) with
    | some bp => pushBucket m bp.1 bp.2
    | none => m

def parseZipStructure (entries : List (String × Bool)) :
    List (String × List String) :=
  entries.foldl (parseStep (rootFolderOf entries)) []

/- Specification-side inferencer, written from the spec's words: strip the
unique long root when present and take the second segment as bucket (three or
more segments required), otherwise take the first segment as bucket (two or
more segments required); directory entries are never materialised.  It
returns the flat list of inferred (bucket, relativePath) pairs. -/
def specDest (root : Option String) (parts : List String) :
    Option (String × String) :=
  match root with
  | some _ =>
    match parts with
    | _ :: b :: r :: rest => some (b, jsJoin "/" (r :: rest))
    | _ => none
  | none =>
    match parts with
    | b :: r :: rest => some (b, jsJoin "/" (r :: rest))
    | _ => none

def inferSpec (entries : List (String × Bool)) : List (String × String) :=
  (entries.filter (fun e => !e.2)).filterMap
    (fun e => specDest (rootFolderOf entries) (jsSplitSlash e.1))

/- The per-entry pairs actually produced by the source's fold. -/
def parsePairs (root : Option String) (entries : List (String × Bool)) :
    List (String × String) :=
  entries.filterMap
    (fun e => if e.2 then none else entrySplit root (jsSplitSlash e.1))

theorem foldl_parseStep_eq (root : Option String) :
    ∀ (entries : List (String × Bool)) (m : List (String × List String)),
    entries.foldl (parseStep root) m =
      (parsePairs root entries).foldl (fun m pr => pushBucket m pr.1 pr.2) m := by
  intro entries
  induction entries with
  | nil => intro m; rfl
  | cons e es ih =>
    intro m
    unfold parsePairs
    rw [List.foldl_cons, List.filterMap_cons]
    by_cases hd : e.2
    · simp only [parseStep, hd, if_pos]
      exact ih m
    · simp only [parseStep, hd, if_neg, Bool.false_eq_true, not_false_iff]
      cases hsp : entrySplit root (jsSplitSlash e.1) with
      | none => simpa [hsp] using ih m
      | some bp => simpa [hsp] using ih (pushBucket m bp.1 bp.2)

theorem lk_pushBucket (m : List (String × List String)) (b rel : String)
    (b' : String) :
    lk (pushBucket m b rel) b' =
      if b' = b then lk m b ++ [rel] else lk m b' := by
  induction m with
  | nil =>
    by_cases h : b' = b
    · subst h; simp [pushBucket, lk]
    · have : ¬ b = b' := fun hq => h hq.symm
      simp [pushBucket, lk, h, this]
  | cons kv m ih =>
    obtain ⟨k, v⟩ := kv
    by_cases hk : k = b
    · subst hk
      by_cases h : b' = k
      · subst h; simp [pushBucket, lk]
      · have hk' : ¬ k = b' := fun hq => h hq.symm
        simp [pushBucket, lk, h, hk']
    · by_cases h : b' = k
      · subst h
        simp [pushBucket, lk, hk]
      · have hkb : ¬ k = b' := fun hq => h hq.symm
        simp [pushBucket, lk, hk, hkb, ih]

theorem lk_foldPush (b : String) :
    ∀ (ps : List (String × String)) (m : List (String × List String)),
    lk (ps.foldl (fun m pr => pushBucket m pr.1 pr.2) m) b =
      lk m b ++ (ps.filter (fun pr => pr.1 = b)).map Prod.snd := by
  intro ps
  induction ps with
  | nil => intro m; simp
  | cons pr t ih =>
    intro m
    rw [List.foldl_cons, ih, lk_pushBucket]
    by_cases h : pr.1 = b
    · subst h
      simp [List.filter_cons, List.append_assoc]
    · have h2 : ¬ b = pr.1 := fun hq => h hq.symm
      simp [List.filter_cons, h, h2]

theorem parsePairs_via_filter (root : Option String) :
    ∀ entries : List (String × Bool),
    parsePairs root entries =
      (entries.filter (fun e => !e.2)).filterMap
        (fun e => entrySplit root (jsSplitSlash e.1)) := by
  intro entries
  induction entries with
  | nil => rfl
  | cons e es ih =>
    unfold parsePairs at ih ⊢
    rw [List.filterMap_cons, List.filter_cons]
    by_cases hd : e.2
    · simp [hd, ih]
    · simp only [hd, Bool.not_false, if_pos]
      rw [List.filterMap_cons]
      cases entrySplit root (jsSplitSlash e.1) with
      | none => simp [ih]
      | some bp => simp [ih]

theorem rootFolderOf_unique {entries : List (String × Bool)} {r : String}
    (hr : rootFolderOf entries = some r) :
    ∀ s ∈ firstSegs entries, s = r := by
  intro s hs
  unfold rootFolderOf at hr
  rcases hd : (firstSegs entries).dedup with _ | ⟨c, t⟩
  · rw [hd] at hr; exact absurd hr (by simp)
  · rcases t with _ | ⟨c₂, t₂⟩
    · rw [hd] at hr
      have hcr : c = r := by
        by_cases hp : looksLikeProjectId c
        · simpa [hp] using hr
        · exact absurd hr (by simp [hp])
      have : s ∈ (firstSegs entries).dedup := List.mem_dedup.mpr hs
      rw [hd] at this
      simp at this
      rw [this, hcr]
    · rw [hd] at hr; exact absurd hr (by simp)

theorem entrySplit_eq_specDest_none (ps : List String) :
    entrySplit none ps = specDest none ps := by
  rcases ps with _ | ⟨b, _ | ⟨r, rest⟩⟩ <;> rfl

theorem entrySplit_eq_specDest_some {r : String} {ps : List String}
    (h : ps = [] ∨ ps.head? = some r) :
    entrySplit (some r) ps = specDest (some r) ps := by
  rcases ps with _ | ⟨p0, rest⟩
  · rfl
  · rcases h with h | h
    · exact absurd h (by simp)
    · have hp : p0 = r := by simpa using h
      subst hp
      rcases rest with _ | ⟨b, _ | ⟨x, t⟩⟩
      · simp [entrySplit, specDest]
      · simp [entrySplit, specDest]
      · simp [entrySplit, specDest]

theorem head_mem_firstSegs {entries : List (String × Bool)}
    {e : String × Bool} {s : String} (he : e ∈ entries) (hd : e.2 = false)
    (hh : (jsSplitSlash e.1).head? = some s) : s ∈ firstSegs entries := by
  unfold firstSegs
  exact List.mem_filterMap.mpr ⟨e, List.mem_filter.mpr ⟨he, by simp [hd]⟩, hh⟩

theorem parsePairs_eq_inferSpec (entries : List (String × Bool)) :
    parsePairs (rootFolderOf entries) entries = inferSpec entries := by
  rw [parsePairs_via_filter]
  unfold inferSpec
  apply List.filterMap_congr
  intro e he
  have hmem := (List.mem_filter.mp he).1
  have hdir : e.2 = false := by
    have := (List.mem_filter.mp he).2
    simpa using this
  rcases hroot : rootFolderOf entries with _ | r
  · exact entrySplit_eq_specDest_none _
  · apply entrySplit_eq_specDest_some
    rcases hh : (jsSplitSlash e.1).head? with _ | s
    · left
      simpa using hh
    · right
      have hs : s ∈ firstSegs entries := head_mem_firstSegs hmem hdir hh
      exact congrArg some (rootFolderOf_unique hroot s hs)

/-- C2.  The archive layout inferencer agrees with the spec's inference rule:
for every entry list and bucket, the bucket's inferred object list is exactly
the relative paths that the spec-side rule (`inferSpec`, written from the
spec's words: strip a unique 20+-character lower-alphanumeric root and take
the second segment as bucket requiring three segments, else take the first
segment as bucket requiring two) assigns to that bucket, in order; and the
two reference examples produce exactly {photos: [a.png], docs: [b.pdf]}. -/
theorem c2_archive_inferencer :
    (∀ (entries : List (String × Bool)) (b : String),
      lk (parseZipStructure entries) b =
        ((inferSpec entries).filter (fun pr => pr.1 = b)).map Prod.snd) ∧
    parseZipStructure
        [("proj123456789012345678/photos/a.png", false),
         ("proj123456789012345678/docs/b.pdf", false)] =
      [("photos", ["a.png"]), ("docs", ["b.pdf"])] ∧
    parseZipStructure [("photos/a.png", false), ("docs/b.pdf", false)] =
      [("photos", ["a.png"]), ("docs", ["b.pdf"])] := by
  refine ⟨?_, by decide, by decide⟩
  intro entries b
  unfold parseZipStructure
  rw [foldl_parseStep_eq, lk_foldPush, parsePairs_eq_inferSpec]
  rfl

theorem jsJoin_cons_ex (sep s : String) (rest : List String) :
    ∃ t, jsJoin sep (s :: rest) = s ++ t := by
  cases rest with
  | nil => exact ⟨"", by simp [jsJoin, String.append_empty]⟩
  | cons x xs =>
    exact ⟨sep ++ jsJoin sep (x :: xs), by simp [jsJoin, String.append_assoc]⟩

theorem mem_jsSplitSlash_ne {p s : String} (h : s ∈ jsSplitSlash p) :
    s ≠ "" := by
  unfold jsSplitSlash at h
  rcases List.mem_map.mp h with ⟨seg, hseg, rfl⟩
  have hne : seg ≠ [] := by simpa using (List.mem_filter.mp hseg).2
  intro he
  apply hne
  have hl : (String.mk seg).length = 0 := by rw [he]; rfl
  exact List.length_eq_zero.mp hl

theorem specDest_rel {root : Option String} {ps : List String} {b rel : String}
    (h : specDest root ps = some (b, rel)) :
    ∃ r rest, rel = jsJoin "/" (r :: rest) ∧ r ∈ ps := by
  rcases root with _ | r0
  · rcases ps with _ | ⟨a, _ | ⟨c, t⟩⟩
    · simp [specDest] at h
    · simp [specDest] at h
    · simp only [specDest, Option.some.injEq, Prod.mk.injEq] at h
      exact ⟨c, t, h.2.symm, by simp⟩
  · rcases ps with _ | ⟨a, _ | ⟨c, _ | ⟨d, t⟩⟩⟩
    · simp [specDest] at h
    · simp [specDest] at h
    · simp [specDest] at h
    · simp only [specDest, Option.some.injEq, Prod.mk.injEq] at h
      exact ⟨d, t, h.2.symm, by simp⟩

/- The bucket-list characterisation of the source inferencer, shared by the
claims about it. -/
theorem lk_parseZipStructure (entries : List (String × Bool)) (b : String) :
    lk (parseZipStructure entries) b =
      ((inferSpec entries).filter (fun pr => pr.1 = b)).map Prod.snd := by
  unfold parseZipStructure
  rw [foldl_parseStep_eq, lk_foldPush, parsePairs_eq_inferSpec]
  rfl

theorem parse_ignores_dirs_fold (root : Option String) :
    ∀ (entries : List (String × Bool)) (m : List (String × List String)),
    (entries.filter (fun e => !e.2)).foldl (parseStep root) m =
      entries.foldl (parseStep root) m := by
  intro entries
  induction entries with
  | nil => intro m; rfl
  | cons e es ih =>
    intro m
    rw [List.filter_cons]
    by_cases hd : e.2
    · have hstep : parseStep root m e = m := by simp [parseStep, hd]
      simp [hd, hstep, ih]
    · simp [hd, ih]

theorem firstSegs_filter (entries : List (String × Bool)) :
    firstSegs (entries.filter (fun e => !e.2)) = firstSegs entries := by
  unfold firstSegs
  rw [List.filter_filter]
  simp

/-- C7.  Every inferred relative path is non-empty; directory-marker entries
contribute nothing to the result; a file at the archive root (one segment,
e.g. "readme.txt") never appears in any bucket; and under root-stripping an
entry with fewer than three segments is skipped, producing the empty plan
rather than an error. -/
theorem c7_nonempty_paths :
    (∀ (entries : List (String × Bool)) (b rel : String),
      rel ∈ lk (parseZipStructure entries) b → rel ≠ "") ∧
    (∀ entries : List (String × Bool),
      parseZipStructure (entries.filter (fun e => !e.2)) =
        parseZipStructure entries) ∧
    parseZipStructure [("readme.txt", false)] = [] ∧
    parseZipStructure [("proj123456789012345678/file.txt", false)] = [] := by
  refine ⟨?_, ?_, by decide, by decide⟩
  · intro entries b rel hmem
    rw [lk_parseZipStructure] at hmem
    rcases List.mem_map.mp hmem with ⟨pr, hpr, hsnd⟩
    have hin : pr ∈ inferSpec entries := (List.mem_filter.mp hpr).1
    unfold inferSpec at hin
    rcases List.mem_filterMap.mp hin with ⟨e, he, hsd⟩
    obtain ⟨b0, rel0⟩ := pr
    rcases specDest_rel hsd with ⟨r, rest, hrel, hrps⟩
    have hr : r ≠ "" := mem_jsSplitSlash_ne hrps
    rcases jsJoin_cons_ex "/" r rest with ⟨t, ht⟩
    intro h0
    have hlen : (r ++ t).length = 0 := by
      rw [← ht, ← hrel]
      have : rel0 = rel := hsnd
      rw [this, h0]
      rfl
    rw [String.length_append] at hlen
    apply hr
    have hr0 : r.length = 0 := by omega
    cases r with
    | mk d =>
      have : d = [] := List.length_eq_zero.mp hr0
      rw [this]
  · intro entries
    unfold parseZipStructure
    have hroot : rootFolderOf (entries.filter (fun e => !e.2)) =
        rootFolderOf entries := by
      unfold rootFolderOf
      rw [firstSegs_filter]
    rw [hroot, parse_ignores_dirs_fold]

/-- Witness for C7: the hypothesis-bearing parts applied at the reference
archive: "a.png" is in the inferred "photos" bucket and is non-empty. -/
theorem c7_nonempty_paths_witness :
    "a.png" ∈ lk (parseZipStructure
        [("proj123456789012345678/photos/a.png", false),
         ("proj123456789012345678/docs/b.pdf", false)]) "photos" ∧
    "a.png" ≠ "" :=
  ⟨by decide, c7_nonempty_paths.1
    [("proj123456789012345678/photos/a.png", false),
     ("proj123456789012345678/docs/b.pdf", false)] "photos" "a.png"
    (by decide)⟩

/- Measures over event lists: how many progress increments, the sum of the
`totalItems` additions, the number of `setTotal` assignments, the emitted log
entries and Error-severity count, and the last written error/success
message.  These recover every field of `runEvs` symbolically. -/
def isInc : Ev → Bool
  | .incProgress => true
  | _ => false

def incCount : List Ev → Nat
  | [] => 0
  | e :: es => (if isInc e then 1 else 0) + incCount es

def addSum : List Ev → Nat
  | [] => 0
  | .addTotal n :: es => n + addSum es
  | _ :: es => addSum es

def stCount : List Ev → Nat
  | [] => 0
  | .setTotal _ :: es => 1 + stCount es
  | _ :: es => stCount es

def isErrLog : Ev → Bool
  | .log _ .error => true
  | _ => false

def errLogCount : List Ev → Nat
  | [] => 0
  | e :: es => (if isErrLog e then 1 else 0) + errLogCount es

def logsOf : List Ev → List LogEntry
  | [] => []
  | .log m sv :: es => ⟨m, sv⟩ :: logsOf es
  | _ :: es => logsOf es

def errOf : List Ev → Option String
  | [] => none
  | .setErr m :: es => some ((errOf es).getD m)
  | _ :: es => errOf es

def succOf : List Ev → Option String
  | [] => none
  | .setSucc m :: es => some ((succOf es).getD m)
  | _ :: es => succOf es

theorem incCount_append (es₁ es₂ : List Ev) :
    incCount (es₁ ++ es₂) = incCount es₁ + incCount es₂ := by
  induction es₁ with
  | nil => simp [incCount]
  | cons e es ih => simp [incCount, ih]; omega

theorem addSum_append (es₁ es₂ : List Ev) :
    addSum (es₁ ++ es₂) = addSum es₁ + addSum es₂ := by
  induction es₁ with
  | nil => simp [addSum]
  | cons e es ih => cases e <;> simp [addSum, ih] <;> omega

theorem stCount_append (es₁ es₂ : List Ev) :
    stCount (es₁ ++ es₂) = stCount es₁ + stCount es₂ := by
  induction es₁ with
  | nil => simp [stCount]
  | cons e es ih => cases e <;> simp [stCount, ih] <;> omega

theorem errLogCount_append (es₁ es₂ : List Ev) :
    errLogCount (es₁ ++ es₂) = errLogCount es₁ + errLogCount es₂ := by
  induction es₁ with
  | nil => simp [errLogCount]
  | cons e es ih => simp [errLogCount, ih]; omega

theorem logsOf_append (es₁ es₂ : List Ev) :
    logsOf (es₁ ++ es₂) = logsOf es₁ ++ logsOf es₂ := by
  induction es₁ with
  | nil => simp [logsOf]
  | cons e es ih => cases e <;> simp [logsOf, ih]

/- Right-biased combination: the last written message wins. -/
def orElseOpt (a b : Option String) : Option String :=
  match b with
  | some m => some m
  | none => a

theorem errOf_append (es₁ es₂ : List Ev) :
    errOf (es₁ ++ es₂) = orElseOpt (errOf es₁) (errOf es₂) := by
  induction es₁ with
  | nil =>
    rw [List.nil_append]
    cases hq : errOf es₂ <;> simp [orElseOpt, errOf]
  | cons e es ih =>
    cases e <;> simp only [List.cons_append, errOf] <;>
      cases hq : errOf es₂ <;> simp [orElseOpt, ih, hq]

theorem succOf_append (es₁ es₂ : List Ev) :
    succOf (es₁ ++ es₂) = orElseOpt (succOf es₁) (succOf es₂) := by
  induction es₁ with
  | nil =>
    rw [List.nil_append]
    cases hq : succOf es₂ <;> simp [orElseOpt, succOf]
  | cons e es ih =>
    cases e <;> simp only [List.cons_append, succOf] <;>
      cases hq : succOf es₂ <;> simp [orElseOpt, ih, hq]

theorem progress_runEvs : ∀ (es : List Ev) (s : St),
    (runEvs s es).progress = s.progress + incCount es := by
  intro es
  induction es with
  | nil => intro s; simp [runEvs, incCount]
  | cons e es ih =>
    intro s
    rw [runEvs_cons, ih]
    cases e <;> simp [applyEv, incCount, isInc] <;> omega

theorem totalItems_runEvs : ∀ (es : List Ev), stCount es = 0 → ∀ s : St,
    (runEvs s es).totalItems = s.totalItems + addSum es := by
  intro es
  induction es with
  | nil => intro _ s; simp [runEvs, addSum]
  | cons e es ih =>
    intro h s
    rw [runEvs_cons]
    cases e with
    | setTotal n => exact absurd h (by simp [stCount])
    | addTotal n =>
      rw [ih (by simpa [stCount] using h)]
      simp [applyEv, addSum]
      omega
    | log m sv =>
      rw [ih (by simpa [stCount] using h)]
      simp [applyEv, addSum]
    | incProgress =>
      rw [ih (by simpa [stCount] using h)]
      simp [applyEv, addSum]
    | setErr m =>
      rw [ih (by simpa [stCount] using h)]
      simp [applyEv, addSum]
    | setSucc m =>
      rw [ih (by simpa [stCount] using h)]
      simp [applyEv, addSum]
    | createCall n p =>
      rw [ih (by simpa [stCount] using h)]
      simp [applyEv, addSum]

theorem logs_runEvs : ∀ (es : List Ev) (s : St),
    (runEvs s es).logs = s.logs ++ logsOf es := by
  intro es
  induction es with
  | nil => intro s; simp [runEvs, logsOf]
  | cons e es ih =>
    intro s
    rw [runEvs_cons, ih]
    cases e <;> simp [applyEv, logsOf]

theorem errMsg_runEvs : ∀ (es : List Ev) (s : St),
    (runEvs s es).errMsg = orElseOpt s.errMsg (errOf es) := by
  intro es
  induction es with
  | nil => intro s; simp [runEvs, errOf, orElseOpt]
  | cons e es ih =>
    intro s
    rw [runEvs_cons, ih]
    cases e <;> simp only [errOf] <;> cases hre : errOf es <;>
      simp [applyEv, orElseOpt]

theorem succMsg_runEvs : ∀ (es : List Ev) (s : St),
    (runEvs s es).succMsg = orElseOpt s.succMsg (succOf es) := by
  intro es
  induction es with
  | nil => intro s; simp [runEvs, succOf, orElseOpt]
  | cons e es ih =>
    intro s
    rw [runEvs_cons, ih]
    cases e <;> simp only [succOf] <;> cases hre : succOf es <;>
      simp [applyEv, orElseOpt]

theorem prefix_append_cases {α : Type} {p l₁ l₂ : List α}
    (hp : p <+: l₁ ++ l₂) :
    p <+: l₁ ∨ ∃ q, q <+: l₂ ∧ p = l₁ ++ q := by
  obtain ⟨t, ht⟩ := hp
  rcases List.append_eq_append_iff.mp ht with ⟨a2, ha1, _⟩ | ⟨c2, hc1, hc2⟩
  · exact Or.inl ⟨a2, ha1.symm⟩
  · exact Or.inr ⟨c2, ⟨t, hc2.symm⟩, hc1⟩

theorem mem_traceEvs : ∀ (es : List Ev) (s₀ s : St), s ∈ traceEvs s₀ es →
    ∃ p, p <+: es ∧ s = runEvs s₀ p := by
  intro es
  induction es with
  | nil =>
    intro s₀ s h
    simp [traceEvs] at h
    exact ⟨[], List.nil_prefix, by simp [h, runEvs]⟩
  | cons e es ih =>
    intro s₀ s h
    simp only [traceEvs, List.scanl_cons, List.singleton_append,
      List.mem_cons] at h
    rcases h with h | h
    · exact ⟨[], List.nil_prefix, by simp [h, runEvs]⟩
    · rcases ih (applyEv s₀ e) s h with ⟨p, hp, hs⟩
      exact ⟨e :: p, List.cons_prefix_cons.mpr ⟨rfl, hp⟩,
        by rw [runEvs_cons]; exact hs⟩

theorem incCount_le_of_pref {p es : List Ev} (h : p <+: es) :
    incCount p ≤ incCount es := by
  obtain ⟨t, rfl⟩ := h
  rw [incCount_append]
  omega

theorem stCount_prefix_zero {p es : List Ev} (h : p <+: es)
    (h0 : stCount es = 0) : stCount p = 0 := by
  obtain ⟨t, rfl⟩ := h
  rw [stCount_append] at h0
  omega

/- Budget predicate: along every prefix, the number of progress increments
seen so far never exceeds the starting budget `k` plus the `totalItems`
additions seen so far.  This is the inductive form of `processed ≤ total`. -/
def Bal (k : Nat) (es : List Ev) : Prop :=
  ∀ p, p <+: es → incCount p ≤ k + addSum p

theorem Bal_mono {k k₂ : Nat} {es : List Ev} (hk : k ≤ k₂) (h : Bal k es) :
    Bal k₂ es :=
  fun p hp => le_trans (h p hp) (by omega)

theorem Bal_append {k : Nat} (j : Nat) {es₁ es₂ : List Ev} (h₁ : Bal k es₁)
    (hmid : incCount es₁ + j ≤ k + addSum es₁) (h₂ : Bal j es₂) :
    Bal k (es₁ ++ es₂) := by
  intro p hp
  rcases prefix_append_cases hp with hp1 | ⟨q, hq, rfl⟩
  · exact h₁ p hp1
  · rw [incCount_append, addSum_append]
    have := h₂ q hq
    omega

theorem Bal_of_le {k : Nat} {es : List Ev} (h : incCount es ≤ k) : Bal k es :=
  fun p hp => le_trans (incCount_le_of_pref hp) (by omega)

theorem progress_applyEv_le (s : St) (e : Ev) :
    s.progress ≤ (applyEv s e).progress := by
  cases e <;> simp [applyEv]

theorem traceEvs_cons_form (s : St) (e : Ev) (es : List Ev) :
    traceEvs s (e :: es) = s :: traceEvs (applyEv s e) es := by
  simp [traceEvs, List.scanl_cons]

theorem traceEvs_head_form : ∀ (es : List Ev) (s : St),
    ∃ t, traceEvs s es = s :: t := by
  intro es s
  cases es with
  | nil => exact ⟨[], rfl⟩
  | cons e es => exact ⟨traceEvs (applyEv s e) es, traceEvs_cons_form s e es⟩

theorem chain_progress_traceEvs : ∀ (es : List Ev) (s : St),
    List.Chain' (fun a b => a.progress ≤ b.progress) (traceEvs s es) := by
  intro es
  induction es with
  | nil => intro s; simp [traceEvs]
  | cons e es ih =>
    intro s
    rw [traceEvs_cons_form]
    rcases traceEvs_head_form es (applyEv s e) with ⟨t, ht⟩
    rw [ht]
    exact List.chain'_cons.mpr ⟨progress_applyEv_le s e, ht ▸ ih (applyEv s e)⟩

/- A run whose events satisfy the budget predicate with zero head start and
never assign `totalItems` keeps `processed ≤ total` at every observed state. -/
theorem progress_le_total_traceEvs {es : List Ev} (hb : Bal 0 es)
    (hst : stCount es = 0) :
    ∀ s ∈ traceEvs initSt es, s.progress ≤ s.totalItems := by
  intro s hs
  rcases mem_traceEvs es initSt s hs with ⟨p, hp, rfl⟩
  rw [progress_runEvs, totalItems_runEvs p (stCount_prefix_zero hp hst)]
  have := hb p hp
  simp [initSt]
  omega

/- JavaScript `s.includes(pat)` on the caught error message ("already
exists" detection), embedded as substring search over character lists. -/
def isPre : List Char → List Char → Bool
  | [], _ => true
  | _ :: _, [] => false
  | a :: as, b :: bs => a = b && isPre as bs

def hasSub : List Char → List Char → Bool
  | [], pat => isPre pat []
  | c :: t, pat => isPre pat (c :: t) || hasSub t pat

def jsIncludes (s pat : String) : Bool := hasSub s.data pat.data

/- Input of one archive-mode run (`migrateFromZip`): whether
`zip.loadAsync` fails, the archive entry list, the destination's existing
bucket names (`listBuckets`), and the `createBucket` / per-object transfer
oracles.  A transfer-oracle failure covers both a decompression
(`file.async`) and an upload error, which the source handles in one catch. -/
structure ZipInput where
  loadErr : Option String
  entries : List (String × Bool)
  existing : List String
  createRes : String → Option String
  up : String → String → Option String

def zipPlan (inp : ZipInput) : List (String × List String) :=
  parseZipStructure inp.entries

def planTotal : List (String × List String) → Nat
  | [] => 0
  | (_, files) :: rest => files.length + planTotal rest

def zipTotal (inp : ZipInput) : Nat := planTotal (zipPlan inp)

def zipFileEvents (up : String → String → Option String) (B rel : String) :
    List Ev :=
  match up B rel with
  | none => [.incProgress, .log ("✓ Uploaded: " ++ B ++ "/" ++ rel) .success]
  | some msg =>
    [.log ("✗ Failed: " ++ B ++ "/" ++ rel ++ " - " ++ msg) .error,
     .incProgress]

def zipFilesEvents (up : String → String → Option String) (B : String) :
    List String → List Ev
  | [] => []
  | rel :: rest => zipFileEvents up B rel ++ zipFilesEvents up B rest

/- A bucket is skipped (its `continue` path) exactly when it must be created
and creation fails with an error not containing "already exists". -/
def zipBucketSkipped (inp : ZipInput) (B : String) : Bool :=
  !(decide (B ∈ inp.existing)) &&
    (match inp.createRes B with
     | some msg => !(jsIncludes msg "already exists")
     | none => false)

def zipBucketEvents (inp : ZipInput) (B : String) (files : List String) :
    List Ev :=
  .log ("\nProcessing bucket: " ++ B) .info ::
  (if B ∈ inp.existing then zipFilesEvents inp.up B files
   else
     .createCall B false ::
     (match inp.createRes B with
      | none =>
        .log ("✓ Created bucket: " ++ B) .success ::
          zipFilesEvents inp.up B files
      | some msg =>
        if jsIncludes msg "already exists" then zipFilesEvents inp.up B files
        else [.log ("✗ Failed to create bucket " ++ B ++ ": " ++ msg) .error]))

def zipBucketsEvents (inp : ZipInput) : List (String × List String) → List Ev
  | [] => []
  | (B, files) :: rest =>
    zipBucketEvents inp B files ++ zipBucketsEvents inp rest

/- Number of objects actually fed to the upload loop (failed or not):
everything in the plan except the objects of skipped buckets. -/
def zipAttempted (inp : ZipInput) : List (String × List String) → Nat
  | [] => 0
  | (B, files) :: rest =>
    (if zipBucketSkipped inp B then 0 else files.length) +
      zipAttempted inp rest

def zipFails (up : String → String → Option String) (B : String) :
    List String → Nat
  | [] => 0
  | rel :: rest =>
    (if (up B rel).isSome then 1 else 0) + zipFails up B rest

def zipErrLogs (inp : ZipInput) : List (String × List String) → Nat
  | [] => 0
  | (B, files) :: rest =>
    (if zipBucketSkipped inp B then 1 else zipFails inp.up B files) +
      zipErrLogs inp rest

def zipNoBucketMsg : String := "No valid bucket structure found in ZIP file"

def zipFoundMsg (inp : ZipInput) : String :=
  "Found " ++ toString (zipPlan inp).length ++ " bucket(s): " ++
    jsJoin ", " ((zipPlan inp).map Prod.fst)

def zipTotalMsg (inp : ZipInput) : String :=
  "Total files to upload: " ++ toString (zipTotal inp)

def zipDoneMsg (inp : ZipInput) : String :=
  "Migration completed! Uploaded " ++
    toString (zipAttempted inp (zipPlan inp)) ++ " out of " ++
    toString (zipTotal inp) ++ " files."

/- The one informational log emitted inside `parseZipStructure` when a
wrapping root folder is detected. -/
def rootLogEvents (entries : List (String × Bool)) : List Ev :=
  match rootFolderOf entries with
  | some r => [.log ("Detected root folder (project ID): " ++ r) .info]
  | none => []

/- Full event list of one `migrateFromZip` run, in source order: two setup
logs, then either the fatal-abort path (load failure or empty inferred
plan: `error` is set and a terminal Error entry logged) or the transfer
path (found/total logs, a single `totalItems` assignment computed before
any transfer, the per-bucket loop, and the success summary). -/
def zipRunEvents (inp : ZipInput) : List Ev :=
  .log "Initializing Supabase client..." .info ::
  .log "Loading ZIP file..." .info ::
  (match inp.loadErr with
   | some m => [.setErr m, .log ("Migration failed: " ++ m) .error]
   | none =>
     rootLogEvents inp.entries ++
     (if zipPlan inp = [] then
        [.setErr zipNoBucketMsg,
         .log ("Migration failed: " ++ zipNoBucketMsg) .error]
      else
        .log (zipFoundMsg inp) .info ::
        .setTotal (zipTotal inp) ::
        .log (zipTotalMsg inp) .info ::
        (zipBucketsEvents inp (zipPlan inp) ++ [.setSucc (zipDoneMsg inp)])))

def zipFinal (inp : ZipInput) : St := runEvs initSt (zipRunEvents inp)

def zipTrace (inp : ZipInput) : List St := traceEvs initSt (zipRunEvents inp)

theorem zipFileEvents_inc (up : String → String → Option String)
    (B rel : String) : incCount (zipFileEvents up B rel) = 1 := by
  unfold zipFileEvents
  cases up B rel <;> rfl

theorem zipFileEvents_err (up : String → String → Option String)
    (B rel : String) :
    errLogCount (zipFileEvents up B rel) =
      if (up B rel).isSome then 1 else 0 := by
  unfold zipFileEvents
  cases up B rel <;> rfl

theorem zipFileEvents_addSum (up : String → String → Option String)
    (B rel : String) : addSum (zipFileEvents up B rel) = 0 := by
  unfold zipFileEvents
  cases up B rel <;> rfl

theorem zipFileEvents_st (up : String → String → Option String)
    (B rel : String) : stCount (zipFileEvents up B rel) = 0 := by
  unfold zipFileEvents
  cases up B rel <;> rfl

theorem zipFileEvents_errOf (up : String → String → Option String)
    (B rel : String) : errOf (zipFileEvents up B rel) = none := by
  unfold zipFileEvents
  cases up B rel <;> rfl

theorem zipFileEvents_succOf (up : String → String → Option String)
    (B rel : String) : succOf (zipFileEvents up B rel) = none := by
  unfold zipFileEvents
  cases up B rel <;> rfl

theorem zipFilesEvents_inc (up : String → String → Option String)
    (B : String) : ∀ fs : List String,
    incCount (zipFilesEvents up B fs) = fs.length := by
  intro fs
  induction fs with
  | nil => rfl
  | cons rel rest ih =>
    simp [zipFilesEvents, incCount_append, zipFileEvents_inc, ih]
    omega

theorem zipFilesEvents_err (up : String → String → Option String)
    (B : String) : ∀ fs : List String,
    errLogCount (zipFilesEvents up B fs) = zipFails up B fs := by
  intro fs
  induction fs with
  | nil => rfl
  | cons rel rest ih =>
    simp [zipFilesEvents, errLogCount_append, zipFileEvents_err, ih, zipFails]

theorem zipFilesEvents_addSum (up : String → String → Option String)
    (B : String) : ∀ fs : List String,
    addSum (zipFilesEvents up B fs) = 0 := by
  intro fs
  induction fs with
  | nil => rfl
  | cons rel rest ih =>
    simp [zipFilesEvents, addSum_append, zipFileEvents_addSum, ih]

theorem zipFilesEvents_st (up : String → String → Option String)
    (B : String) : ∀ fs : List String,
    stCount (zipFilesEvents up B fs) = 0 := by
  intro fs
  induction fs with
  | nil => rfl
  | cons rel rest ih =>
    simp [zipFilesEvents, stCount_append, zipFileEvents_st, ih]

theorem zipFilesEvents_errOf (up : String → String → Option String)
    (B : String) : ∀ fs : List String,
    errOf (zipFilesEvents up B fs) = none := by
  intro fs
  induction fs with
  | nil => rfl
  | cons rel rest ih =>
    simp [zipFilesEvents, errOf_append, zipFileEvents_errOf, ih, orElseOpt]

theorem zipFilesEvents_succOf (up : String → String → Option String)
    (B : String) : ∀ fs : List String,
    succOf (zipFilesEvents up B fs) = none := by
  intro fs
  induction fs with
  | nil => rfl
  | cons rel rest ih =>
    simp [zipFilesEvents, succOf_append, zipFileEvents_succOf, ih, orElseOpt]

theorem zipBucketEvents_inc (inp : ZipInput) (B : String)
    (files : List String) :
    incCount (zipBucketEvents inp B files) =
      if zipBucketSkipped inp B then 0 else files.length := by
  unfold zipBucketEvents zipBucketSkipped
  by_cases hB : B ∈ inp.existing
  · simp [hB, incCount, isInc, zipFilesEvents_inc]
  · cases hc : inp.createRes B with
    | none => simp [hB, hc, incCount, isInc, zipFilesEvents_inc]
    | some msg =>
      by_cases hi : jsIncludes msg "already exists"
      · simp [hB, hc, hi, incCount, isInc, zipFilesEvents_inc]
      · simp [hB, hc, hi, incCount, isInc]

theorem zipBucketEvents_err (inp : ZipInput) (B : String)
    (files : List String) :
    errLogCount (zipBucketEvents inp B files) =
      if zipBucketSkipped inp B then 1 else zipFails inp.up B files := by
  unfold zipBucketEvents zipBucketSkipped
  by_cases hB : B ∈ inp.existing
  · simp [hB, errLogCount, isErrLog, zipFilesEvents_err]
  · cases hc : inp.createRes B with
    | none => simp [hB, hc, errLogCount, isErrLog, zipFilesEvents_err]
    | some msg =>
      by_cases hi : jsIncludes msg "already exists"
      · simp [hB, hc, hi, errLogCount, isErrLog, zipFilesEvents_err]
      · simp [hB, hc, hi, errLogCount, isErrLog]

theorem zipBucketEvents_addSum (inp : ZipInput) (B : String)
    (files : List String) : addSum (zipBucketEvents inp B files) = 0 := by
  unfold zipBucketEvents
  by_cases hB : B ∈ inp.existing
  · simp [hB, addSum, zipFilesEvents_addSum]
  · cases hc : inp.createRes B with
    | none => simp [hB, hc, addSum, zipFilesEvents_addSum]
    | some msg =>
      by_cases hi : jsIncludes msg "already exists"
      · simp [hB, hc, hi, addSum, zipFilesEvents_addSum]
      · simp [hB, hc, hi, addSum]

theorem zipBucketEvents_st (inp : ZipInput) (B : String)
    (files : List String) : stCount (zipBucketEvents inp B files) = 0 := by
  unfold zipBucketEvents
  by_cases hB : B ∈ inp.existing
  · simp [hB, stCount, zipFilesEvents_st]
  · cases hc : inp.createRes B with
    | none => simp [hB, hc, stCount, zipFilesEvents_st]
    | some msg =>
      by_cases hi : jsIncludes msg "already exists"
      · simp [hB, hc, hi, stCount, zipFilesEvents_st]
      · simp [hB, hc, hi, stCount]

theorem zipBucketEvents_errOf (inp : ZipInput) (B : String)
    (files : List String) : errOf (zipBucketEvents inp B files) = none := by
  unfold zipBucketEvents
  by_cases hB : B ∈ inp.existing
  · simp [hB, errOf, zipFilesEvents_errOf]
  · cases hc : inp.createRes B with
    | none => simp [hB, hc, errOf, zipFilesEvents_errOf]
    | some msg =>
      by_cases hi : jsIncludes msg "already exists"
      · simp [hB, hc, hi, errOf, zipFilesEvents_errOf]
      · simp [hB, hc, hi, errOf]

theorem zipBucketEvents_succOf (inp : ZipInput) (B : String)
    (files : List String) : succOf (zipBucketEvents inp B files) = none := by
  unfold zipBucketEvents
  by_cases hB : B ∈ inp.existing
  · simp [hB, succOf, zipFilesEvents_succOf]
  · cases hc : inp.createRes B with
    | none => simp [hB, hc, succOf, zipFilesEvents_succOf]
    | some msg =>
      by_cases hi : jsIncludes msg "already exists"
      · simp [hB, hc, hi, succOf, zipFilesEvents_succOf]
      · simp [hB, hc, hi, succOf]

theorem zipBucketsEvents_inc (inp : ZipInput) :
    ∀ plan : List (String × List String),
    incCount (zipBucketsEvents inp plan) = zipAttempted inp plan := by
  intro plan
  induction plan with
  | nil => rfl
  | cons bf rest ih =>
    obtain ⟨B, files⟩ := bf
    simp [zipBucketsEvents, incCount_append, zipBucketEvents_inc, ih,
      zipAttempted]

theorem zipBucketsEvents_err (inp : ZipInput) :
    ∀ plan : List (String × List String),
    errLogCount (zipBucketsEvents inp plan) = zipErrLogs inp plan := by
  intro plan
  induction plan with
  | nil => rfl
  | cons bf rest ih =>
    obtain ⟨B, files⟩ := bf
    simp [zipBucketsEvents, errLogCount_append, zipBucketEvents_err, ih,
      zipErrLogs]

theorem zipBucketsEvents_addSum (inp : ZipInput) :
    ∀ plan : List (String × List String),
    addSum (zipBucketsEvents inp plan) = 0 := by
  intro plan
  induction plan with
  | nil => rfl
  | cons bf rest ih =>
    obtain ⟨B, files⟩ := bf
    simp [zipBucketsEvents, addSum_append, zipBucketEvents_addSum, ih]

theorem zipBucketsEvents_st (inp : ZipInput) :
    ∀ plan : List (String × List String),
    stCount (zipBucketsEvents inp plan) = 0 := by
  intro plan
  induction plan with
  | nil => rfl
  | cons bf rest ih =>
    obtain ⟨B, files⟩ := bf
    simp [zipBucketsEvents, stCount_append, zipBucketEvents_st, ih]

theorem zipBucketsEvents_errOf (inp : ZipInput) :
    ∀ plan : List (String × List String),
    errOf (zipBucketsEvents inp plan) = none := by
  intro plan
  induction plan with
  | nil => rfl
  | cons bf rest ih =>
    obtain ⟨B, files⟩ := bf
    simp [zipBucketsEvents, errOf_append, zipBucketEvents_errOf, ih, orElseOpt]

theorem zipBucketsEvents_succOf (inp : ZipInput) :
    ∀ plan : List (String × List String),
    succOf (zipBucketsEvents inp plan) = none := by
  intro plan
  induction plan with
  | nil => rfl
  | cons bf rest ih =>
    obtain ⟨B, files⟩ := bf
    simp [zipBucketsEvents, succOf_append, zipBucketEvents_succOf, ih,
      orElseOpt]

theorem zipAttempted_le_planTotal (inp : ZipInput) :
    ∀ plan : List (String × List String),
    zipAttempted inp plan ≤ planTotal plan := by
  intro plan
  induction plan with
  | nil => simp [zipAttempted, planTotal]
  | cons bf rest ih =>
    obtain ⟨B, files⟩ := bf
    unfold zipAttempted planTotal
    by_cases hs : zipBucketSkipped inp B <;> simp [hs] <;> omega

/- Number of Error-severity entries in a log. -/
def errEntries : List LogEntry → Nat
  | [] => 0
  | le :: t => (if le.sev = Sev.error then 1 else 0) + errEntries t

theorem errEntries_append (l₁ l₂ : List LogEntry) :
    errEntries (l₁ ++ l₂) = errEntries l₁ + errEntries l₂ := by
  induction l₁ with
  | nil => simp [errEntries]
  | cons le t ih => simp [errEntries, ih]; omega

theorem errEntries_logsOf : ∀ es : List Ev,
    errEntries (logsOf es) = errLogCount es := by
  intro es
  induction es with
  | nil => rfl
  | cons e es ih =>
    cases e with
    | log m sv => cases sv <;> simp [logsOf, errEntries, errLogCount, isErrLog, ih]
    | incProgress => simp [logsOf, errEntries, errLogCount, isErrLog, ih]
    | setTotal n => simp [logsOf, errEntries, errLogCount, isErrLog, ih]
    | addTotal n => simp [logsOf, errEntries, errLogCount, isErrLog, ih]
    | setErr m => simp [logsOf, errEntries, errLogCount, isErrLog, ih]
    | setSucc m => simp [logsOf, errEntries, errLogCount, isErrLog, ih]
    | createCall n p => simp [logsOf, errEntries, errLogCount, isErrLog, ih]

def zipPreEvents (inp : ZipInput) : List Ev :=
  [.log "Initializing Supabase client..." .info,
   .log "Loading ZIP file..." .info] ++
  rootLogEvents inp.entries ++ [.log (zipFoundMsg inp) .info]

def zipPostEvents (inp : ZipInput) : List Ev :=
  .log (zipTotalMsg inp) .info ::
    (zipBucketsEvents inp (zipPlan inp) ++ [.setSucc (zipDoneMsg inp)])

theorem zipRunEvents_main (inp : ZipInput) (hl : inp.loadErr = none)
    (hp : zipPlan inp ≠ []) :
    zipRunEvents inp =
      zipPreEvents inp ++ (.setTotal (zipTotal inp) :: zipPostEvents inp) := by
  unfold zipRunEvents zipPreEvents zipPostEvents
  rw [hl]
  simp [hp]

theorem zipPreEvents_inc (inp : ZipInput) : incCount (zipPreEvents inp) = 0 := by
  unfold zipPreEvents rootLogEvents
  cases rootFolderOf inp.entries <;> rfl

theorem zipPreEvents_addSum (inp : ZipInput) :
    addSum (zipPreEvents inp) = 0 := by
  unfold zipPreEvents rootLogEvents
  cases rootFolderOf inp.entries <;> rfl

theorem zipPreEvents_st (inp : ZipInput) : stCount (zipPreEvents inp) = 0 := by
  unfold zipPreEvents rootLogEvents
  cases rootFolderOf inp.entries <;> rfl

theorem zipPreEvents_err (inp : ZipInput) :
    errLogCount (zipPreEvents inp) = 0 := by
  unfold zipPreEvents rootLogEvents
  cases rootFolderOf inp.entries <;> rfl

theorem zipPreEvents_errOf (inp : ZipInput) :
    errOf (zipPreEvents inp) = none := by
  unfold zipPreEvents rootLogEvents
  cases rootFolderOf inp.entries <;> rfl

theorem zipPreEvents_succOf (inp : ZipInput) :
    succOf (zipPreEvents inp) = none := by
  unfold zipPreEvents rootLogEvents
  cases rootFolderOf inp.entries <;> rfl

theorem zipPostEvents_inc (inp : ZipInput) :
    incCount (zipPostEvents inp) = zipAttempted inp (zipPlan inp) := by
  unfold zipPostEvents
  simp [incCount, isInc, incCount_append, zipBucketsEvents_inc]

theorem zipPostEvents_addSum (inp : ZipInput) :
    addSum (zipPostEvents inp) = 0 := by
  unfold zipPostEvents
  simp [addSum, addSum_append, zipBucketsEvents_addSum]

theorem zipPostEvents_st (inp : ZipInput) :
    stCount (zipPostEvents inp) = 0 := by
  unfold zipPostEvents
  simp [stCount, stCount_append, zipBucketsEvents_st]

theorem zipPostEvents_err (inp : ZipInput) :
    errLogCount (zipPostEvents inp) = zipErrLogs inp (zipPlan inp) := by
  unfold zipPostEvents
  simp [errLogCount, isErrLog, errLogCount_append, zipBucketsEvents_err]

theorem zipPostEvents_errOf (inp : ZipInput) :
    errOf (zipPostEvents inp) = none := by
  unfold zipPostEvents
  simp [errOf, errOf_append, zipBucketsEvents_errOf, orElseOpt]

theorem zipPostEvents_succOf (inp : ZipInput) :
    succOf (zipPostEvents inp) = some (zipDoneMsg inp) := by
  unfold zipPostEvents
  simp [succOf, succOf_append, zipBucketsEvents_succOf, orElseOpt]

theorem zipFinal_main (inp : ZipInput) (hl : inp.loadErr = none)
    (hp : zipPlan inp ≠ []) :
    (zipFinal inp).progress = zipAttempted inp (zipPlan inp) ∧
    (zipFinal inp).totalItems = zipTotal inp ∧
    (zipFinal inp).errMsg = none ∧
    (zipFinal inp).succMsg = some (zipDoneMsg inp) ∧
    errEntries (zipFinal inp).logs = zipErrLogs inp (zipPlan inp) := by
  unfold zipFinal
  rw [zipRunEvents_main inp hl hp]
  refine ⟨?_, ?_, ?_, ?_, ?_⟩
  · rw [progress_runEvs, incCount_append]
    have h1 : incCount (Ev.setTotal (zipTotal inp) :: zipPostEvents inp) =
        incCount (zipPostEvents inp) := by
      simp [incCount, isInc]
    rw [h1, zipPreEvents_inc, zipPostEvents_inc]
    simp [initSt]
  · rw [runEvs_append, runEvs_cons,
      totalItems_runEvs (zipPostEvents inp) (zipPostEvents_st inp),
      zipPostEvents_addSum]
    simp [applyEv]
  · rw [errMsg_runEvs, errOf_append]
    have h1 : errOf (Ev.setTotal (zipTotal inp) :: zipPostEvents inp) =
        errOf (zipPostEvents inp) := rfl
    rw [h1, zipPostEvents_errOf, zipPreEvents_errOf]
    simp [orElseOpt, initSt]
  · rw [succMsg_runEvs, succOf_append]
    have h1 : succOf (Ev.setTotal (zipTotal inp) :: zipPostEvents inp) =
        succOf (zipPostEvents inp) := rfl
    rw [h1, zipPostEvents_succOf]
    simp [orElseOpt]
  · rw [logs_runEvs, errEntries_append, errEntries_logsOf, errLogCount_append]
    have h1 : errLogCount (Ev.setTotal (zipTotal inp) :: zipPostEvents inp) =
        errLogCount (zipPostEvents inp) := by
      simp [errLogCount, isErrLog]
    rw [h1, zipPostEvents_err, zipPreEvents_err]
    simp [initSt, errEntries]

theorem addSum_le_of_pref {p es : List Ev} (h : p <+: es) :
    addSum p ≤ addSum es := by
  obtain ⟨t, rfl⟩ := h
  rw [addSum_append]
  omega

theorem prefix_cons_cases {α : Type} {p : List α} {x : α} {l : List α}
    (h : p <+: x :: l) : p = [] ∨ ∃ q, p = x :: q ∧ q <+: l := by
  cases p with
  | nil => exact Or.inl rfl
  | cons y q =>
    rcases List.cons_prefix_cons.mp h with ⟨rfl, hq⟩
    exact Or.inr ⟨q, rfl, hq⟩

theorem zipRunEvents_load (inp : ZipInput) (m : String)
    (hl : inp.loadErr = some m) :
    zipRunEvents inp =
      [.log "Initializing Supabase client..." .info,
       .log "Loading ZIP file..." .info,
       .setErr m, .log ("Migration failed: " ++ m) .error] := by
  unfold zipRunEvents
  rw [hl]

theorem zipRunEvents_emptyPlan (inp : ZipInput) (hl : inp.loadErr = none)
    (hp : zipPlan inp = []) :
    zipRunEvents inp =
      .log "Initializing Supabase client..." .info ::
      .log "Loading ZIP file..." .info ::
      (rootLogEvents inp.entries ++
        [.setErr zipNoBucketMsg,
         .log ("Migration failed: " ++ zipNoBucketMsg) .error]) := by
  unfold zipRunEvents
  rw [hl]
  simp [hp]

theorem zip_abort_measures (inp : ZipInput)
    (h : ¬(inp.loadErr = none ∧ zipPlan inp ≠ [])) :
    incCount (zipRunEvents inp) = 0 ∧ addSum (zipRunEvents inp) = 0 ∧
      stCount (zipRunEvents inp) = 0 ∧ succOf (zipRunEvents inp) = none := by
  rcases hl : inp.loadErr with _ | m
  · have hp : zipPlan inp = [] := by
      by_contra hq
      exact h ⟨hl, hq⟩
    rw [zipRunEvents_emptyPlan inp hl hp]
    unfold rootLogEvents
    cases rootFolderOf inp.entries <;>
      exact ⟨rfl, rfl, rfl, rfl⟩
  · rw [zipRunEvents_load inp m hl]
    exact ⟨rfl, rfl, rfl, rfl⟩

theorem zip_abort_errMsg (inp : ZipInput) :
    (∀ m, inp.loadErr = some m → (zipFinal inp).errMsg = some m) ∧
    (inp.loadErr = none → zipPlan inp = [] →
      (zipFinal inp).errMsg = some zipNoBucketMsg) := by
  constructor
  · intro m hl
    unfold zipFinal
    rw [zipRunEvents_load inp m hl, errMsg_runEvs]
    rfl
  · intro hl hp
    unfold zipFinal
    rw [zipRunEvents_emptyPlan inp hl hp, errMsg_runEvs]
    unfold rootLogEvents
    cases rootFolderOf inp.entries <;> rfl

theorem zip_abort_states (inp : ZipInput)
    (h : ¬(inp.loadErr = none ∧ zipPlan inp ≠ [])) :
    ∀ s ∈ zipTrace inp, s.progress = 0 ∧ s.totalItems = 0 := by
  intro s hs
  rcases mem_traceEvs _ _ _ hs with ⟨p, hp, rfl⟩
  obtain ⟨hi, ha, hst, _⟩ := zip_abort_measures inp h
  constructor
  · rw [progress_runEvs]
    have := incCount_le_of_pref hp
    simp [initSt]
    omega
  · rw [totalItems_runEvs p (stCount_prefix_zero hp hst)]
    have := addSum_le_of_pref hp
    simp [initSt]
    omega

theorem zip_state_main_cases (inp : ZipInput) (hl : inp.loadErr = none)
    (hp : zipPlan inp ≠ []) :
    ∀ s ∈ zipTrace inp,
    (s.progress = 0 ∧ s.totalItems = 0) ∨
      (s.totalItems = zipTotal inp ∧ s.progress ≤ zipTotal inp) := by
  intro s hs
  rcases mem_traceEvs _ _ _ hs with ⟨p, hpp, rfl⟩
  rw [zipRunEvents_main inp hl hp] at hpp
  have hpre_state : ∀ q : List Ev, q <+: zipPreEvents inp →
      (runEvs initSt q).progress = 0 ∧ (runEvs initSt q).totalItems = 0 := by
    intro q hq
    constructor
    · rw [progress_runEvs]
      have h1 := incCount_le_of_pref hq
      rw [zipPreEvents_inc] at h1
      simp [initSt]
      omega
    · rw [totalItems_runEvs q
        (stCount_prefix_zero hq (zipPreEvents_st inp))]
      have h1 := addSum_le_of_pref hq
      rw [zipPreEvents_addSum] at h1
      simp [initSt]
      omega
  rcases prefix_append_cases hpp with h1 | ⟨q, hq, rfl⟩
  · exact Or.inl (hpre_state p h1)
  · rcases prefix_cons_cases hq with rfl | ⟨q', rfl, hq'⟩
    · rw [List.append_nil]
      exact Or.inl (hpre_state _ List.prefix_rfl)
    · right
      constructor
      · rw [runEvs_append, runEvs_cons, totalItems_runEvs q'
          (stCount_prefix_zero hq' (zipPostEvents_st inp))]
        have h2 := addSum_le_of_pref hq'
        rw [zipPostEvents_addSum] at h2
        simp [applyEv]
        omega
      · rw [progress_runEvs, incCount_append]
        have h2 := incCount_le_of_pref hq'
        rw [zipPostEvents_inc] at h2
        have h3 := zipAttempted_le_planTotal inp (zipPlan inp)
        have h4 : incCount (Ev.setTotal (zipTotal inp) :: q') =
            incCount q' := by simp [incCount, isInc]
        rw [zipPreEvents_inc, h4]
        unfold zipTotal at h3 ⊢
        simp [initSt]
        omega

theorem createCall_not_mem_zipFileEvents
    (up : String → String → Option String) (B rel n : String) (pb : Bool) :
    Ev.createCall n pb ∉ zipFileEvents up B rel := by
  unfold zipFileEvents
  cases up B rel <;> simp

theorem createCall_not_mem_zipFilesEvents
    (up : String → String → Option String) (B n : String) (pb : Bool) :
    ∀ fs : List String, Ev.createCall n pb ∉ zipFilesEvents up B fs := by
  intro fs
  induction fs with
  | nil => simp [zipFilesEvents]
  | cons rel rest ih =>
    simp only [zipFilesEvents, List.mem_append]
    rintro (h | h)
    · exact createCall_not_mem_zipFileEvents up B rel n pb h
    · exact ih h

theorem createCall_mem_zipBucketEvents {inp : ZipInput} {B n : String}
    {pb : Bool} {files : List String}
    (h : Ev.createCall n pb ∈ zipBucketEvents inp B files) :
    pb = false ∧ n = B ∧ B ∉ inp.existing := by
  unfold zipBucketEvents at h
  by_cases hB : B ∈ inp.existing
  · rw [if_pos hB] at h
    rcases List.mem_cons.mp h with h | h
    · exact absurd h (by simp)
    · exact absurd h (createCall_not_mem_zipFilesEvents inp.up B n pb files)
  · rw [if_neg hB] at h
    rcases List.mem_cons.mp h with h | h
    · exact absurd h (by simp)
    · rcases List.mem_cons.mp h with h | h
      · obtain ⟨hn, hp⟩ : n = B ∧ pb = false := by simpa using h
        exact ⟨hp, hn, hB⟩
      · exfalso
        cases hc : inp.createRes B with
        | none =>
          simp only [hc] at h
          rcases List.mem_cons.mp h with h | h
          · exact absurd h (by simp)
          · exact createCall_not_mem_zipFilesEvents inp.up B n pb files h
        | some msg =>
          simp only [hc] at h
          by_cases hi : jsIncludes msg "already exists"
          · rw [if_pos hi] at h
            exact createCall_not_mem_zipFilesEvents inp.up B n pb files h
          · rw [if_neg hi] at h
            simp at h

theorem createCall_mem_zipBucketsEvents {inp : ZipInput} {n : String}
    {pb : Bool} :
    ∀ plan : List (String × List String),
    Ev.createCall n pb ∈ zipBucketsEvents inp plan →
    pb = false ∧ n ∉ inp.existing := by
  intro plan
  induction plan with
  | nil => simp [zipBucketsEvents]
  | cons bf rest ih =>
    obtain ⟨B, files⟩ := bf
    intro h
    rcases List.mem_append.mp h with h | h
    · obtain ⟨hp, hn, hB⟩ := createCall_mem_zipBucketEvents h
      exact ⟨hp, hn ▸ hB⟩
    · exact ih h

theorem createCall_covers_zipBucketsEvents {inp : ZipInput} {B : String}
    {files : List String} (hB : B ∉ inp.existing) :
    ∀ plan : List (String × List String), (B, files) ∈ plan →
    Ev.createCall B false ∈ zipBucketsEvents inp plan := by
  intro plan
  induction plan with
  | nil => simp
  | cons bf rest ih =>
    intro hm
    obtain ⟨B2, files2⟩ := bf
    rcases List.mem_cons.mp hm with hm | hm
    · obtain ⟨hBeq, hfeq⟩ : B = B2 ∧ files = files2 := by
        simpa using hm
      subst hBeq
      apply List.mem_append.mpr
      left
      unfold zipBucketEvents
      rw [if_neg hB]
      exact List.mem_cons.mpr (Or.inr (List.mem_cons.mpr (Or.inl rfl)))
    · exact List.mem_append.mpr (Or.inr (ih hm))

theorem createCall_mem_zipRunEvents {inp : ZipInput} {n : String} {pb : Bool}
    (h : Ev.createCall n pb ∈ zipRunEvents inp) :
    pb = false ∧ n ∉ inp.existing := by
  by_cases hmain : inp.loadErr = none ∧ zipPlan inp ≠ []
  · rw [zipRunEvents_main inp hmain.1 hmain.2] at h
    rcases List.mem_append.mp h with h | h
    · exfalso
      unfold zipPreEvents rootLogEvents at h
      rcases hro : rootFolderOf inp.entries with _ | r <;> rw [hro] at h <;>
        simp at h
    · rcases List.mem_cons.mp h with h | h
      · exact absurd h (by simp)
      · unfold zipPostEvents at h
        rcases List.mem_cons.mp h with h | h
        · exact absurd h (by simp)
        · rcases List.mem_append.mp h with h | h
          · exact createCall_mem_zipBucketsEvents (zipPlan inp) h
          · exact absurd h (by simp)
  · exfalso
    rcases hl : inp.loadErr with _ | m
    · have hp : zipPlan inp = [] := by
        by_contra hq
        exact hmain ⟨hl, hq⟩
      rw [zipRunEvents_emptyPlan inp hl hp] at h
      unfold rootLogEvents at h
      rcases hro : rootFolderOf inp.entries with _ | r <;> rw [hro] at h <;>
        simp at h
    · rw [zipRunEvents_load inp m hl] at h
      simp at h

theorem createCall_covers_zipRunEvents {inp : ZipInput} {B : String}
    {files : List String} (hl : inp.loadErr = none)
    (hm : (B, files) ∈ zipPlan inp) (hB : B ∉ inp.existing) :
    Ev.createCall B false ∈ zipRunEvents inp := by
  have hp : zipPlan inp ≠ [] := by
    intro hq
    rw [hq] at hm
    exact absurd hm (by simp)
  rw [zipRunEvents_main inp hl hp]
  apply List.mem_append.mpr
  right
  apply List.mem_cons.mpr
  right
  unfold zipPostEvents
  apply List.mem_cons.mpr
  right
  apply List.mem_append.mpr
  left
  exact createCall_covers_zipBucketsEvents hB (zipPlan inp) hm

/- Source tree for live mode (`migrateFilesFromBucket`).  A listed item with
object metadata is a file leaf carrying its download and upload oracles
(`none` = the call succeeds); an item without metadata is a folder, carrying
the oracle of the `list` call made when recursing into it and its children. -/
inductive SrcEntry where
  | file (name : String) (download : Option String) (upload : Option String)
  | dir (name : String) (listErr : Option String) (children : List SrcEntry)

/- One source bucket as returned by `listBuckets`, with the oracle of the
root-level `list` call and the root listing. -/
structure LiveBucket where
  name : String
  isPublic : Bool
  listErr : Option String
  children : List SrcEntry

/- Input of one live-mode run (`migrateLiveProject`). -/
structure LiveInput where
  bucketsRes : Option String
  buckets : List LiveBucket
  createRes : String → Option String

/- `path ? `${path}/${file.name}` : file.name`. -/
def joinPath (p n : String) : String := if p = "" then n else p ++ "/" ++ n

/- Events of transferring one file in live mode.  Note: on a download or
upload failure the catch logs an Error but does not touch `progress`; only
the success path increments it. -/
def fileEvents (fp : String) (download upload : Option String) : List Ev :=
  .log ("Downloading: " ++ fp) .info ::
  (match download with
   | some msg => [.log ("✗ Failed: " ++ fp ++ " - " ++ msg) .error]
   | none =>
     .log ("Uploading: " ++ fp) .info ::
     (match upload with
      | some msg => [.log ("✗ Failed: " ++ fp ++ " - " ++ msg) .error]
      | none => [.incProgress, .log ("✓ Migrated: " ++ fp) .success]))

/- Events of the recursive listing walk: a directory whose listing fails
logs one Error and aborts only that subtree; a non-empty listing first adds
its length to `totalItems`, then processes the items in order. -/
def entriesEvents (B : String) : String → List SrcEntry → List Ev
  | _, [] => []
  | path, .file n d u :: es =>
    fileEvents (joinPath path n) d u ++ entriesEvents B path es
  | path, .dir n le cs :: es =>
    (match le with
     | some msg =>
       [.log ("Error listing files in " ++ B ++ "/" ++ joinPath path n ++
         ": " ++ msg) .error]
     | none =>
       if cs.isEmpty then []
       else .addTotal cs.length :: entriesEvents B (joinPath path n) cs) ++
    entriesEvents B path es

def bucketRootEvents (B : String) (le : Option String)
    (cs : List SrcEntry) : List Ev :=
  match le with
  | some msg =>
    [.log ("Error listing files in " ++ B ++ "/" ++ "" ++ ": " ++ msg) .error]
  | none =>
    if cs.isEmpty then [] else .addTotal cs.length :: entriesEvents B "" cs

/- Events of one bucket in live mode.  Faithful to the source's quirk: any
`createBucket` error not containing "already exists" is thrown, caught, and
logged at Info severity as "already exists, continuing..." — and the
bucket's files are migrated regardless of the creation outcome. -/
def liveBucketEvents (createRes : String → Option String)
    (b : LiveBucket) : List Ev :=
  .log ("\nProcessing bucket: " ++ b.name) .info ::
  .createCall b.name b.isPublic ::
  ((match createRes b.name with
    | none => [.log ("✓ Created bucket: " ++ b.name) .success]
    | some msg =>
      if jsIncludes msg "already exists" then []
      else
        [.log ("Bucket " ++ b.name ++ " already exists, continuing...")
          .info]) ++
   bucketRootEvents b.name b.listErr b.children)

def liveBucketsEvents (createRes : String → Option String) :
    List LiveBucket → List Ev
  | [] => []
  | b :: t => liveBucketEvents createRes b ++ liveBucketsEvents createRes t

/- Input-side counts mirroring the walk: successful transfers, Error-log
producing failures, `totalItems` additions, reachable file leaves, and the
all-listings-succeed predicate. -/
def entriesSucc : List SrcEntry → Nat
  | [] => 0
  | .file _ d u :: es =>
    (if d = none ∧ u = none then 1 else 0) + entriesSucc es
  | .dir _ le cs :: es =>
    (match le with | some _ => 0 | none => entriesSucc cs) + entriesSucc es

def entriesErrC : List SrcEntry → Nat
  | [] => 0
  | .file _ d u :: es =>
    (if d = none ∧ u = none then 0 else 1) + entriesErrC es
  | .dir _ le cs :: es =>
    (match le with | some _ => 1 | none => entriesErrC cs) + entriesErrC es

def entriesAddC : List SrcEntry → Nat
  | [] => 0
  | .file _ _ _ :: es => entriesAddC es
  | .dir _ le cs :: es =>
    (match le with
     | some _ => 0
     | none => if cs.isEmpty then 0 else cs.length + entriesAddC cs) +
    entriesAddC es

def entriesFileC : List SrcEntry → Nat
  | [] => 0
  | .file _ _ _ :: es => 1 + entriesFileC es
  | .dir _ le cs :: es =>
    (match le with | some _ => 0 | none => entriesFileC cs) + entriesFileC es

def entriesAllOk : List SrcEntry → Bool
  | [] => true
  | .file _ _ _ :: es => entriesAllOk es
  | .dir _ le cs :: es => le.isNone && entriesAllOk cs && entriesAllOk es

def bucketSucc (b : LiveBucket) : Nat :=
  match b.listErr with | some _ => 0 | none => entriesSucc b.children

def bucketErrC (b : LiveBucket) : Nat :=
  match b.listErr with | some _ => 1 | none => entriesErrC b.children

def bucketAddC (b : LiveBucket) : Nat :=
  match b.listErr with
  | some _ => 0
  | none =>
    if b.children.isEmpty then 0
    else b.children.length + entriesAddC b.children

def bucketFileC (b : LiveBucket) : Nat :=
  match b.listErr with | some _ => 0 | none => entriesFileC b.children

def bucketsSucc : List LiveBucket → Nat
  | [] => 0
  | b :: t => bucketSucc b + bucketsSucc t

def bucketsErrC : List LiveBucket → Nat
  | [] => 0
  | b :: t => bucketErrC b + bucketsErrC t

def bucketsFileC : List LiveBucket → Nat
  | [] => 0
  | b :: t => bucketFileC b + bucketsFileC t

def liveNoBucketsMsg : String := "Migration completed (no buckets found)"

def liveDoneMsg (inp : LiveInput) : String :=
  "Migration completed! Processed " ++ toString inp.buckets.length ++
    " bucket(s) with " ++ toString (bucketsSucc inp.buckets) ++
    " total files."

/- Full event list of one `migrateLiveProject` run, in source order. -/
def liveRunEvents (inp : LiveInput) : List Ev :=
  .log "Initializing Supabase clients..." .info ::
  .log "Fetching buckets from source project..." .info ::
  (match inp.bucketsRes with
   | some m =>
     [.setErr ("Failed to list buckets: " ++ m),
      .log ("Migration failed: " ++ ("Failed to list buckets: " ++ m))
        .error]
   | none =>
     if inp.buckets.isEmpty then
       [.log "No buckets found in source project" .warning,
        .setSucc liveNoBucketsMsg]
     else
       .log ("Found " ++ toString inp.buckets.length ++ " bucket(s): " ++
         jsJoin ", " (inp.buckets.map LiveBucket.name)) .info ::
       (liveBucketsEvents inp.createRes inp.buckets ++
         [.setSucc (liveDoneMsg inp)]))

def liveFinal (inp : LiveInput) : St := runEvs initSt (liveRunEvents inp)

def liveTrace (inp : LiveInput) : List St := traceEvs initSt (liveRunEvents inp)

theorem fileEvents_inc (fp : String) (d u : Option String) :
    incCount (fileEvents fp d u) = if d = none ∧ u = none then 1 else 0 := by
  unfold fileEvents
  rcases d with _ | dm
  · rcases u with _ | um <;> simp [incCount, isInc]
  · simp [incCount, isInc]

theorem fileEvents_err (fp : String) (d u : Option String) :
    errLogCount (fileEvents fp d u) =
      if d = none ∧ u = none then 0 else 1 := by
  unfold fileEvents
  rcases d with _ | dm
  · rcases u with _ | um <;> simp [errLogCount, isErrLog]
  · simp [errLogCount, isErrLog]

theorem fileEvents_addSum (fp : String) (d u : Option String) :
    addSum (fileEvents fp d u) = 0 := by
  unfold fileEvents
  rcases d with _ | dm
  · rcases u with _ | um <;> rfl
  · rfl

theorem fileEvents_st (fp : String) (d u : Option String) :
    stCount (fileEvents fp d u) = 0 := by
  unfold fileEvents
  rcases d with _ | dm
  · rcases u with _ | um <;> rfl
  · rfl

theorem fileEvents_errOf (fp : String) (d u : Option String) :
    errOf (fileEvents fp d u) = none := by
  unfold fileEvents
  rcases d with _ | dm
  · rcases u with _ | um <;> rfl
  · rfl

theorem fileEvents_succOf (fp : String) (d u : Option String) :
    succOf (fileEvents fp d u) = none := by
  unfold fileEvents
  rcases d with _ | dm
  · rcases u with _ | um <;> rfl
  · rfl

theorem entriesEvents_inc (B : String) : ∀ (path : String)
    (l : List SrcEntry),
    incCount (entriesEvents B path l) = entriesSucc l := by
  intro path l
  induction path, l using entriesEvents.induct B with
  | case1 path => simp [entriesEvents, incCount, entriesSucc]
  | case2 path n d u es ih =>
    simp [entriesEvents, incCount_append, fileEvents_inc, ih, entriesSucc]
  | case3 path n le cs es ih1 ih2 =>
    rcases le with _ | msg
    · simp only at ih1
      by_cases hcs : cs.isEmpty
      · rw [List.isEmpty_iff] at hcs
        subst hcs
        simp [entriesEvents, incCount_append, ih2, entriesSucc]
      · simp [entriesEvents, hcs, incCount_append, incCount, isInc, ih1, ih2,
          entriesSucc]
    · simp [entriesEvents, incCount_append, incCount, isInc, ih2, entriesSucc]

theorem entriesEvents_err (B : String) : ∀ (path : String)
    (l : List SrcEntry),
    errLogCount (entriesEvents B path l) = entriesErrC l := by
  intro path l
  induction path, l using entriesEvents.induct B with
  | case1 path => simp [entriesEvents, errLogCount, entriesErrC]
  | case2 path n d u es ih =>
    simp [entriesEvents, errLogCount_append, fileEvents_err, ih, entriesErrC]
  | case3 path n le cs es ih1 ih2 =>
    rcases le with _ | msg
    · simp only at ih1
      by_cases hcs : cs.isEmpty
      · rw [List.isEmpty_iff] at hcs
        subst hcs
        simp [entriesEvents, errLogCount_append, ih2, entriesErrC]
      · simp [entriesEvents, hcs, errLogCount_append, errLogCount, isErrLog,
          ih1, ih2, entriesErrC]
    · simp [entriesEvents, errLogCount_append, errLogCount, isErrLog, ih2,
        entriesErrC]

theorem entriesEvents_addSum (B : String) : ∀ (path : String)
    (l : List SrcEntry),
    addSum (entriesEvents B path l) = entriesAddC l := by
  intro path l
  induction path, l using entriesEvents.induct B with
  | case1 path => simp [entriesEvents, addSum, entriesAddC]
  | case2 path n d u es ih =>
    simp [entriesEvents, addSum_append, fileEvents_addSum, ih, entriesAddC]
  | case3 path n le cs es ih1 ih2 =>
    rcases le with _ | msg
    · simp only at ih1
      by_cases hcs : cs.isEmpty
      · rw [List.isEmpty_iff] at hcs
        subst hcs
        simp [entriesEvents, addSum_append, ih2, entriesAddC]
      · simp [entriesEvents, hcs, addSum_append, addSum, ih1, ih2,
          entriesAddC]
        omega
    · simp [entriesEvents, addSum_append, addSum, ih2, entriesAddC]

theorem entriesEvents_st (B : String) : ∀ (path : String)
    (l : List SrcEntry), stCount (entriesEvents B path l) = 0 := by
  intro path l
  induction path, l using entriesEvents.induct B with
  | case1 path => simp [entriesEvents, stCount]
  | case2 path n d u es ih =>
    simp [entriesEvents, stCount_append, fileEvents_st, ih]
  | case3 path n le cs es ih1 ih2 =>
    rcases le with _ | msg
    · simp only at ih1
      by_cases hcs : cs.isEmpty
      · rw [List.isEmpty_iff] at hcs
        subst hcs
        simp [entriesEvents, stCount_append, ih2]
      · simp [entriesEvents, hcs, stCount_append, stCount, ih1, ih2]
    · simp [entriesEvents, stCount_append, stCount, ih2]

theorem entriesEvents_errOf (B : String) : ∀ (path : String)
    (l : List SrcEntry), errOf (entriesEvents B path l) = none := by
  intro path l
  induction path, l using entriesEvents.induct B with
  | case1 path => simp [entriesEvents, errOf]
  | case2 path n d u es ih =>
    simp [entriesEvents, errOf_append, fileEvents_errOf, ih, orElseOpt]
  | case3 path n le cs es ih1 ih2 =>
    rcases le with _ | msg
    · simp only at ih1
      by_cases hcs : cs.isEmpty
      · rw [List.isEmpty_iff] at hcs
        subst hcs
        simp [entriesEvents, errOf_append, ih2, orElseOpt]
      · simp [entriesEvents, hcs, errOf_append, errOf, ih1, ih2, orElseOpt]
    · simp [entriesEvents, errOf_append, errOf, ih2, orElseOpt]

theorem entriesEvents_succOf (B : String) : ∀ (path : String)
    (l : List SrcEntry), succOf (entriesEvents B path l) = none := by
  intro path l
  induction path, l using entriesEvents.induct B with
  | case1 path => simp [entriesEvents, succOf]
  | case2 path n d u es ih =>
    simp [entriesEvents, succOf_append, fileEvents_succOf, ih, orElseOpt]
  | case3 path n le cs es ih1 ih2 =>
    rcases le with _ | msg
    · simp only at ih1
      by_cases hcs : cs.isEmpty
      · rw [List.isEmpty_iff] at hcs
        subst hcs
        simp [entriesEvents, succOf_append, ih2, orElseOpt]
      · simp [entriesEvents, hcs, succOf_append, succOf, ih1, ih2, orElseOpt]
    · simp [entriesEvents, succOf_append, succOf, ih2, orElseOpt]

theorem entriesSucc_le : ∀ l : List SrcEntry,
    entriesSucc l ≤ entriesAddC l + l.length := by
  intro l
  induction l using entriesSucc.induct with
  | case1 => simp [entriesSucc, entriesAddC]
  | case2 n d u es ih =>
    unfold entriesSucc entriesAddC
    simp only [List.length_cons]
    by_cases h : d = none ∧ u = none <;> simp [h] <;> omega
  | case3 n le cs es ih1 ih2 =>
    unfold entriesSucc entriesAddC
    simp only [List.length_cons]
    rcases le with _ | msg
    · simp only at ih1
      by_cases hcs : cs.isEmpty
      · rw [List.isEmpty_iff] at hcs
        subst hcs
        simp [entriesSucc]
        omega
      · simp [hcs]
        omega
    · simp
      omega

theorem Bal_consAdd {k n : Nat} {es : List Ev} (h : Bal n es) :
    Bal k (.addTotal n :: es) := by
  intro p hp
  rcases prefix_cons_cases hp with rfl | ⟨q, rfl, hq⟩
  · simp [incCount]
  · have := h q hq
    simp [incCount, isInc, addSum]
    omega

theorem entriesEvents_bal (B : String) : ∀ (path : String)
    (l : List SrcEntry) (k : Nat), l.length ≤ k →
    Bal k (entriesEvents B path l) := by
  intro path l
  induction path, l using entriesEvents.induct B with
  | case1 path =>
    intro k hk
    unfold entriesEvents
    intro p hp
    rw [List.prefix_nil.mp hp]
    simp [incCount]
  | case2 path n d u es ih =>
    intro k hk
    unfold entriesEvents
    have hfile : incCount (fileEvents (joinPath path n) d u) ≤ 1 := by
      rw [fileEvents_inc]
      by_cases h : d = none ∧ u = none <;> simp [h]
    apply Bal_append es.length
      (Bal_of_le (le_trans hfile (by simp at hk; omega)))
    · rw [fileEvents_addSum]
      simp at hk
      omega
    · exact ih es.length le_rfl
  | case3 path n le cs es ih1 ih2 =>
    intro k hk
    unfold entriesEvents
    rcases le with _ | msg
    · simp only at ih1
      by_cases hcs : cs.isEmpty
      · rw [if_pos hcs, List.nil_append]
        exact ih2 k (by simp at hk; omega)
      · rw [if_neg hcs]
        have hblock : Bal 0 (.addTotal cs.length ::
            entriesEvents B (joinPath path n) cs) :=
          Bal_consAdd (ih1 cs.length le_rfl)
        apply Bal_append es.length (Bal_mono (Nat.zero_le k) hblock)
        · have h1 : incCount (.addTotal cs.length ::
              entriesEvents B (joinPath path n) cs) =
              entriesSucc cs := by
            simp [incCount, isInc, entriesEvents_inc]
          have h2 : addSum (.addTotal cs.length ::
              entriesEvents B (joinPath path n) cs) =
              cs.length + entriesAddC cs := by
            simp [addSum, entriesEvents_addSum]
          rw [h1, h2]
          have h3 := entriesSucc_le cs
          simp at hk
          omega
        · exact ih2 es.length le_rfl
    · apply Bal_append es.length (Bal_of_le (k := k) (by simp [incCount, isInc]))
      · simp [incCount, isInc, addSum]
        simp at hk
        omega
      · exact ih2 es.length le_rfl

def bucketAllOk (b : LiveBucket) : Bool :=
  b.listErr.isNone && entriesAllOk b.children

def bucketsAllOk : List LiveBucket → Bool
  | [] => true
  | b :: t => bucketAllOk b && bucketsAllOk t

def bucketsAddC : List LiveBucket → Nat
  | [] => 0
  | b :: t => bucketAddC b + bucketsAddC t

theorem bucketRootEvents_inc (B : String) (le : Option String)
    (cs : List SrcEntry) :
    incCount (bucketRootEvents B le cs) =
      match le with | some _ => 0 | none => entriesSucc cs := by
  unfold bucketRootEvents
  rcases le with _ | msg
  · by_cases hcs : cs.isEmpty
    · rw [if_pos hcs]
      rw [List.isEmpty_iff] at hcs
      subst hcs
      simp [incCount, entriesSucc]
    · rw [if_neg hcs]
      simp [incCount, isInc, entriesEvents_inc]
  · simp [incCount, isInc]

theorem bucketRootEvents_err (B : String) (le : Option String)
    (cs : List SrcEntry) :
    errLogCount (bucketRootEvents B le cs) =
      match le with | some _ => 1 | none => entriesErrC cs := by
  unfold bucketRootEvents
  rcases le with _ | msg
  · by_cases hcs : cs.isEmpty
    · rw [if_pos hcs]
      rw [List.isEmpty_iff] at hcs
      subst hcs
      simp [errLogCount, entriesErrC]
    · rw [if_neg hcs]
      simp [errLogCount, isErrLog, entriesEvents_err]
  · simp [errLogCount, isErrLog]

theorem bucketRootEvents_addSum (B : String) (le : Option String)
    (cs : List SrcEntry) :
    addSum (bucketRootEvents B le cs) =
      match le with
      | some _ => 0
      | none => if cs.isEmpty then 0 else cs.length + entriesAddC cs := by
  unfold bucketRootEvents
  rcases le with _ | msg
  · by_cases hcs : cs.isEmpty
    · rw [if_pos hcs, if_pos hcs]
      simp [addSum]
    · rw [if_neg hcs, if_neg hcs]
      simp [addSum, entriesEvents_addSum]
  · simp [addSum]

theorem bucketRootEvents_st (B : String) (le : Option String)
    (cs : List SrcEntry) : stCount (bucketRootEvents B le cs) = 0 := by
  unfold bucketRootEvents
  rcases le with _ | msg
  · by_cases hcs : cs.isEmpty
    · rw [if_pos hcs]
      simp [stCount]
    · rw [if_neg hcs]
      simp [stCount, entriesEvents_st]
  · simp [stCount]

theorem bucketRootEvents_errOf (B : String) (le : Option String)
    (cs : List SrcEntry) : errOf (bucketRootEvents B le cs) = none := by
  unfold bucketRootEvents
  rcases le with _ | msg
  · by_cases hcs : cs.isEmpty
    · rw [if_pos hcs]
      simp [errOf]
    · rw [if_neg hcs]
      simp [errOf, entriesEvents_errOf]
  · simp [errOf]

theorem bucketRootEvents_succOf (B : String) (le : Option String)
    (cs : List SrcEntry) : succOf (bucketRootEvents B le cs) = none := by
  unfold bucketRootEvents
  rcases le with _ | msg
  · by_cases hcs : cs.isEmpty
    · rw [if_pos hcs]
      simp [succOf]
    · rw [if_neg hcs]
      simp [succOf, entriesEvents_succOf]
  · simp [succOf]

theorem bucketRootEvents_bal (B : String) (le : Option String)
    (cs : List SrcEntry) : Bal 0 (bucketRootEvents B le cs) := by
  unfold bucketRootEvents
  rcases le with _ | msg
  · by_cases hcs : cs.isEmpty
    · rw [if_pos hcs]
      exact Bal_of_le (by simp [incCount])
    · rw [if_neg hcs]
      exact Bal_consAdd (entriesEvents_bal B "" cs cs.length le_rfl)
  · exact Bal_of_le (by simp [incCount, isInc])

theorem liveBucketEvents_eq_none (c : String → Option String)
    (b : LiveBucket) (hc : c b.name = none) :
    liveBucketEvents c b =
      .log ("\nProcessing bucket: " ++ b.name) .info ::
      .createCall b.name b.isPublic ::
      ([.log ("✓ Created bucket: " ++ b.name) .success] ++
        bucketRootEvents b.name b.listErr b.children) := by
  unfold liveBucketEvents
  rw [hc]

theorem liveBucketEvents_eq_some (c : String → Option String)
    (b : LiveBucket) (msg : String) (hc : c b.name = some msg) :
    liveBucketEvents c b =
      .log ("\nProcessing bucket: " ++ b.name) .info ::
      .createCall b.name b.isPublic ::
      ((if jsIncludes msg "already exists" then []
        else
          [.log ("Bucket " ++ b.name ++ " already exists, continuing...")
            .info]) ++
       bucketRootEvents b.name b.listErr b.children) := by
  unfold liveBucketEvents
  rw [hc]

theorem liveBucketEvents_inc (c : String → Option String) (b : LiveBucket) :
    incCount (liveBucketEvents c b) = bucketSucc b := by
  have hroot : incCount (bucketRootEvents b.name b.listErr b.children) =
      bucketSucc b := by
    rw [bucketRootEvents_inc]
    unfold bucketSucc
    rcases b.listErr with _ | m <;> simp
  rcases hc : c b.name with _ | msg
  · rw [liveBucketEvents_eq_none c b hc]
    simp [incCount, isInc, incCount_append, hroot]
  · rw [liveBucketEvents_eq_some c b msg hc]
    by_cases hi : jsIncludes msg "already exists"
    · rw [if_pos hi]
      simp [incCount, isInc, incCount_append, hroot]
    · rw [if_neg hi]
      simp [incCount, isInc, incCount_append, hroot]

theorem liveBucketEvents_err (c : String → Option String) (b : LiveBucket) :
    errLogCount (liveBucketEvents c b) = bucketErrC b := by
  have hroot : errLogCount (bucketRootEvents b.name b.listErr b.children) =
      bucketErrC b := by
    rw [bucketRootEvents_err]
    unfold bucketErrC
    rcases b.listErr with _ | m <;> simp
  rcases hc : c b.name with _ | msg
  · rw [liveBucketEvents_eq_none c b hc]
    simp [errLogCount, isErrLog, errLogCount_append, hroot]
  · rw [liveBucketEvents_eq_some c b msg hc]
    by_cases hi : jsIncludes msg "already exists"
    · rw [if_pos hi]
      simp [errLogCount, isErrLog, errLogCount_append, hroot]
    · rw [if_neg hi]
      simp [errLogCount, isErrLog, errLogCount_append, hroot]

theorem liveBucketEvents_addSum (c : String → Option String)
    (b : LiveBucket) : addSum (liveBucketEvents c b) = bucketAddC b := by
  have hroot : addSum (bucketRootEvents b.name b.listErr b.children) =
      bucketAddC b := by
    rw [bucketRootEvents_addSum]
    unfold bucketAddC
    rcases b.listErr with _ | m <;> simp
  rcases hc : c b.name with _ | msg
  · rw [liveBucketEvents_eq_none c b hc]
    simp [addSum, addSum_append, hroot]
  · rw [liveBucketEvents_eq_some c b msg hc]
    by_cases hi : jsIncludes msg "already exists"
    · rw [if_pos hi]
      simp [addSum, addSum_append, hroot]
    · rw [if_neg hi]
      simp [addSum, addSum_append, hroot]

theorem liveBucketEvents_st (c : String → Option String) (b : LiveBucket) :
    stCount (liveBucketEvents c b) = 0 := by
  rcases hc : c b.name with _ | msg
  · rw [liveBucketEvents_eq_none c b hc]
    simp [stCount, stCount_append, bucketRootEvents_st]
  · rw [liveBucketEvents_eq_some c b msg hc]
    by_cases hi : jsIncludes msg "already exists"
    · rw [if_pos hi]
      simp [stCount, stCount_append, bucketRootEvents_st]
    · rw [if_neg hi]
      simp [stCount, stCount_append, bucketRootEvents_st]

theorem liveBucketEvents_errOf (c : String → Option String)
    (b : LiveBucket) : errOf (liveBucketEvents c b) = none := by
  rcases hc : c b.name with _ | msg
  · rw [liveBucketEvents_eq_none c b hc]
    simp [errOf, errOf_append, bucketRootEvents_errOf, orElseOpt]
  · rw [liveBucketEvents_eq_some c b msg hc]
    by_cases hi : jsIncludes msg "already exists"
    · rw [if_pos hi]
      simp [errOf, errOf_append, bucketRootEvents_errOf, orElseOpt]
    · rw [if_neg hi]
      simp [errOf, errOf_append, bucketRootEvents_errOf, orElseOpt]

theorem liveBucketEvents_succOf (c : String → Option String)
    (b : LiveBucket) : succOf (liveBucketEvents c b) = none := by
  rcases hc : c b.name with _ | msg
  · rw [liveBucketEvents_eq_none c b hc]
    simp [succOf, succOf_append, bucketRootEvents_succOf, orElseOpt]
  · rw [liveBucketEvents_eq_some c b msg hc]
    by_cases hi : jsIncludes msg "already exists"
    · rw [if_pos hi]
      simp [succOf, succOf_append, bucketRootEvents_succOf, orElseOpt]
    · rw [if_neg hi]
      simp [succOf, succOf_append, bucketRootEvents_succOf, orElseOpt]

theorem bucketSucc_le_addC (b : LiveBucket) : bucketSucc b ≤ bucketAddC b := by
  unfold bucketSucc bucketAddC
  rcases b.listErr with _ | m
  · by_cases hcs : b.children.isEmpty
    · rw [List.isEmpty_iff] at hcs
      rw [hcs]
      simp [entriesSucc]
    · simp only
      rw [if_neg (by rw [List.isEmpty_iff]; intro hq; rw [List.isEmpty_iff] at hcs; exact hcs hq)]
      have := entriesSucc_le b.children
      omega
  · simp

theorem liveBucketEvents_bal (c : String → Option String) (b : LiveBucket) :
    Bal 0 (liveBucketEvents c b) := by
  have hblock : ∀ blk : List Ev, incCount blk = 0 → addSum blk = 0 →
      Bal 0 (blk ++ bucketRootEvents b.name b.listErr b.children) := by
    intro blk hbi hba
    exact Bal_append 0 (Bal_of_le (by omega)) (by omega)
      (bucketRootEvents_bal b.name b.listErr b.children)
  have hcons : ∀ (m : String) (sv : Sev) (es : List Ev), Bal 0 es →
      Bal 0 (.log m sv :: es) := by
    intro m sv es h p hp
    rcases prefix_cons_cases hp with rfl | ⟨q, rfl, hq⟩
    · simp [incCount]
    · have := h q hq
      simp [incCount, isInc, addSum]
      omega
  have hcons2 : ∀ (n : String) (pb : Bool) (es : List Ev), Bal 0 es →
      Bal 0 (.createCall n pb :: es) := by
    intro n pb es h p hp
    rcases prefix_cons_cases hp with rfl | ⟨q, rfl, hq⟩
    · simp [incCount]
    · have := h q hq
      simp [incCount, isInc, addSum]
      omega
  rcases hc : c b.name with _ | msg
  · rw [liveBucketEvents_eq_none c b hc]
    exact hcons _ _ _ (hcons2 _ _ _
      (hblock _ (by simp [incCount, isInc]) (by simp [addSum])))
  · rw [liveBucketEvents_eq_some c b msg hc]
    by_cases hi : jsIncludes msg "already exists"
    · rw [if_pos hi]
      exact hcons _ _ _ (hcons2 _ _ _
        (hblock [] rfl rfl))
    · rw [if_neg hi]
      exact hcons _ _ _ (hcons2 _ _ _
        (hblock _ (by simp [incCount, isInc]) (by simp [addSum])))

theorem liveBucketsEvents_inc (c : String → Option String) :
    ∀ bs : List LiveBucket,
    incCount (liveBucketsEvents c bs) = bucketsSucc bs := by
  intro bs
  induction bs with
  | nil => rfl
  | cons b t ih =>
    simp [liveBucketsEvents, incCount_append, liveBucketEvents_inc, ih,
      bucketsSucc]

theorem liveBucketsEvents_err (c : String → Option String) :
    ∀ bs : List LiveBucket,
    errLogCount (liveBucketsEvents c bs) = bucketsErrC bs := by
  intro bs
  induction bs with
  | nil => rfl
  | cons b t ih =>
    simp [liveBucketsEvents, errLogCount_append, liveBucketEvents_err, ih,
      bucketsErrC]

theorem liveBucketsEvents_addSum (c : String → Option String) :
    ∀ bs : List LiveBucket,
    addSum (liveBucketsEvents c bs) = bucketsAddC bs := by
  intro bs
  induction bs with
  | nil => rfl
  | cons b t ih =>
    simp [liveBucketsEvents, addSum_append, liveBucketEvents_addSum, ih,
      bucketsAddC]

theorem liveBucketsEvents_st (c : String → Option String) :
    ∀ bs : List LiveBucket, stCount (liveBucketsEvents c bs) = 0 := by
  intro bs
  induction bs with
  | nil => rfl
  | cons b t ih =>
    simp [liveBucketsEvents, stCount_append, liveBucketEvents_st, ih]

theorem liveBucketsEvents_errOf (c : String → Option String) :
    ∀ bs : List LiveBucket, errOf (liveBucketsEvents c bs) = none := by
  intro bs
  induction bs with
  | nil => rfl
  | cons b t ih =>
    simp [liveBucketsEvents, errOf_append, liveBucketEvents_errOf, ih,
      orElseOpt]

theorem liveBucketsEvents_succOf (c : String → Option String) :
    ∀ bs : List LiveBucket, succOf (liveBucketsEvents c bs) = none := by
  intro bs
  induction bs with
  | nil => rfl
  | cons b t ih =>
    simp [liveBucketsEvents, succOf_append, liveBucketEvents_succOf, ih,
      orElseOpt]

theorem liveBucketsEvents_bal (c : String → Option String) :
    ∀ bs : List LiveBucket, Bal 0 (liveBucketsEvents c bs) := by
  intro bs
  induction bs with
  | nil =>
    intro p hp
    rw [List.prefix_nil.mp hp]
    simp [incCount]
  | cons b t ih =>
    apply Bal_append 0 (liveBucketEvents_bal c b)
    · rw [liveBucketEvents_inc, liveBucketEvents_addSum]
      have := bucketSucc_le_addC b
      omega
    · exact ih

theorem liveRunEvents_main (inp : LiveInput) (hb : inp.bucketsRes = none)
    (hne : inp.buckets.isEmpty = false) :
    liveRunEvents inp =
      [.log "Initializing Supabase clients..." .info,
       .log "Fetching buckets from source project..." .info,
       .log ("Found " ++ toString inp.buckets.length ++ " bucket(s): " ++
         jsJoin ", " (inp.buckets.map LiveBucket.name)) .info] ++
      (liveBucketsEvents inp.createRes inp.buckets ++
        [.setSucc (liveDoneMsg inp)]) := by
  unfold liveRunEvents
  rw [hb]
  simp [hne]

theorem liveRunEvents_abort (inp : LiveInput) (m : String)
    (hb : inp.bucketsRes = some m) :
    liveRunEvents inp =
      [.log "Initializing Supabase clients..." .info,
       .log "Fetching buckets from source project..." .info,
       .setErr ("Failed to list buckets: " ++ m),
       .log ("Migration failed: " ++ ("Failed to list buckets: " ++ m))
         .error] := by
  unfold liveRunEvents
  rw [hb]

theorem liveRunEvents_noBuckets (inp : LiveInput)
    (hb : inp.bucketsRes = none) (he : inp.buckets.isEmpty = true) :
    liveRunEvents inp =
      [.log "Initializing Supabase clients..." .info,
       .log "Fetching buckets from source project..." .info,
       .log "No buckets found in source project" .warning,
       .setSucc liveNoBucketsMsg] := by
  unfold liveRunEvents
  rw [hb]
  simp [he]

theorem liveFinal_main (inp : LiveInput) (hb : inp.bucketsRes = none)
    (hne : inp.buckets.isEmpty = false) :
    (liveFinal inp).progress = bucketsSucc inp.buckets ∧
    (liveFinal inp).totalItems = bucketsAddC inp.buckets ∧
    (liveFinal inp).errMsg = none ∧
    (liveFinal inp).succMsg = some (liveDoneMsg inp) ∧
    errEntries (liveFinal inp).logs = bucketsErrC inp.buckets := by
  unfold liveFinal
  rw [liveRunEvents_main inp hb hne]
  refine ⟨?_, ?_, ?_, ?_, ?_⟩
  · rw [progress_runEvs, incCount_append, incCount_append]
    have h1 : incCount [Ev.setSucc (liveDoneMsg inp)] = 0 := rfl
    rw [h1, liveBucketsEvents_inc]
    simp [initSt, incCount, isInc]
  · rw [totalItems_runEvs]
    · rw [addSum_append, addSum_append, liveBucketsEvents_addSum]
      simp [initSt, addSum]
    · rw [stCount_append, stCount_append, liveBucketsEvents_st]
      simp [stCount]
  · rw [errMsg_runEvs, errOf_append, errOf_append, liveBucketsEvents_errOf]
    simp [initSt, errOf, orElseOpt]
  · rw [succMsg_runEvs, succOf_append, succOf_append,
      liveBucketsEvents_succOf]
    simp [succOf, orElseOpt]
  · rw [logs_runEvs, errEntries_append, errEntries_logsOf,
      errLogCount_append, errLogCount_append, liveBucketsEvents_err]
    simp [initSt, errEntries, errLogCount, isErrLog]

theorem liveFinal_abort (inp : LiveInput) (m : String)
    (hb : inp.bucketsRes = some m) :
    (liveFinal inp).errMsg = some ("Failed to list buckets: " ++ m) ∧
    (liveFinal inp).succMsg = none ∧
    (liveFinal inp).progress = 0 := by
  unfold liveFinal
  rw [liveRunEvents_abort inp m hb]
  exact ⟨rfl, rfl, rfl⟩

theorem liveFinal_noBuckets (inp : LiveInput) (hb : inp.bucketsRes = none)
    (he : inp.buckets.isEmpty = true) :
    (liveFinal inp).errMsg = none ∧
    (liveFinal inp).succMsg = some liveNoBucketsMsg ∧
    (liveFinal inp).progress = 0 := by
  unfold liveFinal
  rw [liveRunEvents_noBuckets inp hb he]
  exact ⟨rfl, rfl, rfl⟩

theorem liveRunEvents_st (inp : LiveInput) :
    stCount (liveRunEvents inp) = 0 := by
  rcases hb : inp.bucketsRes with _ | m
  · rcases he : inp.buckets.isEmpty with _ | _
    · rw [liveRunEvents_main inp hb he]
      rw [stCount_append, stCount_append, liveBucketsEvents_st]
      simp [stCount]
    · rw [liveRunEvents_noBuckets inp hb he]
      rfl
  · rw [liveRunEvents_abort inp m hb]
    rfl

theorem liveRunEvents_bal (inp : LiveInput) :
    Bal 0 (liveRunEvents inp) := by
  rcases hb : inp.bucketsRes with _ | m
  · rcases he : inp.buckets.isEmpty with _ | _
    · rw [liveRunEvents_main inp hb he]
      apply Bal_append 0 (Bal_of_le (by simp [incCount, isInc]))
      · simp [incCount, isInc]
      · apply Bal_append 0 (liveBucketsEvents_bal inp.createRes inp.buckets)
        · rw [liveBucketsEvents_inc, liveBucketsEvents_addSum]
          have hs : ∀ bs : List LiveBucket,
              bucketsSucc bs ≤ bucketsAddC bs := by
            intro bs
            induction bs with
            | nil => simp [bucketsSucc, bucketsAddC]
            | cons b t ih =>
              have := bucketSucc_le_addC b
              simp [bucketsSucc, bucketsAddC]
              omega
          have := hs inp.buckets
          omega
        · exact Bal_of_le (by simp [incCount, isInc])
    · rw [liveRunEvents_noBuckets inp hb he]
      exact Bal_of_le (by simp [incCount, isInc])
  · rw [liveRunEvents_abort inp m hb]
    exact Bal_of_le (by simp [incCount, isInc])

theorem live_state_inv (inp : LiveInput) :
    ∀ s ∈ liveTrace inp, s.progress ≤ s.totalItems :=
  progress_le_total_traceEvs (liveRunEvents_bal inp) (liveRunEvents_st inp)

theorem entries_ok_count : ∀ l : List SrcEntry, entriesAllOk l = true →
    entriesSucc l + entriesErrC l = entriesFileC l := by
  intro l
  induction l using entriesAllOk.induct with
  | case1 => intro _; simp [entriesSucc, entriesErrC, entriesFileC]
  | case2 n d u es ih =>
    intro h
    rw [entriesAllOk] at h
    unfold entriesSucc entriesErrC entriesFileC
    have := ih h
    by_cases hdu : d = none ∧ u = none <;> simp [hdu] <;> omega
  | case3 n le cs es ih1 ih2 =>
    intro h
    rw [entriesAllOk] at h
    simp only [Bool.and_eq_true] at h
    obtain ⟨⟨hle, hcs⟩, hes⟩ := h
    unfold entriesSucc entriesErrC entriesFileC
    rcases le with _ | m
    · have h1 := ih1 hcs
      have h2 := ih2 hes
      simp
      omega
    · simp at hle

theorem buckets_ok_count : ∀ bs : List LiveBucket, bucketsAllOk bs = true →
    bucketsSucc bs + bucketsErrC bs = bucketsFileC bs := by
  intro bs
  induction bs with
  | nil => intro _; rfl
  | cons b t ih =>
    intro h
    rw [bucketsAllOk, Bool.and_eq_true] at h
    obtain ⟨hb, ht⟩ := h
    rw [bucketAllOk, Bool.and_eq_true] at hb
    obtain ⟨hle, hcs⟩ := hb
    unfold bucketsSucc bucketsErrC bucketsFileC
    have h2 := ih ht
    have h1 : bucketSucc b + bucketErrC b = bucketFileC b := by
      unfold bucketSucc bucketErrC bucketFileC
      rcases hlee : b.listErr with _ | m
      · exact entries_ok_count b.children hcs
      · rw [hlee] at hle
        simp at hle
    omega

/- On a bucket-creation failure whose message does not contain "already
exists", the live flow logs only this Info-severity entry from its catch. -/
theorem liveCreate_info_mem (c : String → Option String) (b : LiveBucket)
    (msg : String) (hc : c b.name = some msg)
    (hi : jsIncludes msg "already exists" = false) :
    (⟨"Bucket " ++ b.name ++ " already exists, continuing...", Sev.info⟩ :
      LogEntry) ∈ logsOf (liveBucketEvents c b) := by
  rw [liveBucketEvents_eq_some c b msg hc, if_neg (by simp [hi])]
  simp [logsOf, logsOf_append]

/- The live flow transfers the same objects and reaches the same counters
whatever the bucket-creation oracle returns: creation failures (of any kind)
neither skip a bucket nor stop the run. -/
theorem liveFinal_createRes_indep (br : Option String)
    (bs : List LiveBucket) (c₁ c₂ : String → Option String) :
    (liveFinal ⟨br, bs, c₁⟩).progress = (liveFinal ⟨br, bs, c₂⟩).progress ∧
    (liveFinal ⟨br, bs, c₁⟩).totalItems =
      (liveFinal ⟨br, bs, c₂⟩).totalItems ∧
    errEntries (liveFinal ⟨br, bs, c₁⟩).logs =
      errEntries (liveFinal ⟨br, bs, c₂⟩).logs := by
  cases br with
  | some m =>
    unfold liveFinal
    rw [liveRunEvents_abort ⟨some m, bs, c₁⟩ m rfl,
      liveRunEvents_abort ⟨some m, bs, c₂⟩ m rfl]
    exact ⟨rfl, rfl, rfl⟩
  | none =>
    rcases he : bs.isEmpty with _ | _
    · obtain ⟨h1, h2, _, _, h5⟩ := liveFinal_main ⟨none, bs, c₁⟩ rfl he
      obtain ⟨g1, g2, _, _, g5⟩ := liveFinal_main ⟨none, bs, c₂⟩ rfl he
      exact ⟨by rw [h1, g1], by rw [h2, g2], by rw [h5, g5]⟩
    · unfold liveFinal
      rw [liveRunEvents_noBuckets ⟨none, bs, c₁⟩ rfl he,
        liveRunEvents_noBuckets ⟨none, bs, c₂⟩ rfl he]
      exact ⟨rfl, rfl, rfl⟩

theorem zipAttempted_full (inp : ZipInput) :
    ∀ plan : List (String × List String),
    (∀ B ∈ plan.map Prod.fst, zipBucketSkipped inp B = false) →
    zipAttempted inp plan = planTotal plan := by
  intro plan
  induction plan with
  | nil => intro _; rfl
  | cons bf rest ih =>
    intro h
    obtain ⟨B, files⟩ := bf
    have hB : zipBucketSkipped inp B = false := h B (by simp)
    unfold zipAttempted planTotal
    rw [hB]
    simp
    exact ih (fun B2 hB2 => h B2 (by simp [hB2]))

/- Concrete run inputs used by the counterexamples and witnesses. -/
def c1ex : LiveInput :=
  ⟨none, [⟨"b", false, none, [.file "a.png" none (some "boom")]⟩],
    fun _ => none⟩

def c1zex : ZipInput :=
  ⟨none, [("b/x.png", false)], [], fun _ => none, fun _ _ => some "boom"⟩

/-- C1, counterexample.  The claim states that a failed transfer still
increments the processed counter in both modes.  In live mode it does not:
in this run the single object's upload fails (the Error entry is logged, the
object is recorded as Failed, and `totalItems` was raised to 1), yet the
final `progress` is 0, not the claimed 1. -/
theorem c1_counterexample :
    (⟨"✗ Failed: a.png - boom", Sev.error⟩ : LogEntry) ∈
      (liveFinal c1ex).logs ∧
    (liveFinal c1ex).totalItems = 1 ∧
    (liveFinal c1ex).progress = 0 ∧
    ¬ (liveFinal c1ex).progress = 1 := by
  have he : entriesEvents "b" ""
      [SrcEntry.file "a.png" none (some "boom")] =
      fileEvents "a.png" none (some "boom") := by
    simp [entriesEvents, joinPath]
  unfold liveFinal
  rw [liveRunEvents_main c1ex rfl (by decide)]
  simp only [c1ex, liveBucketsEvents, liveBucketEvents, bucketRootEvents, he]
  decide

/-- C1, amended.  For every object whose transfer fails, both modes log an
Error-severity entry recording the object as Failed; in archive (ZIP) mode
the processed counter is still incremented by exactly one, the same as for
success (each file contributes exactly one increment whatever its outcome,
so a non-aborted run's final count is the full attempted count); in live
mode a failed transfer does not increment the counter — it counts only
successful transfers. -/
theorem c1_failed_transfer_accounting :
    (∀ (up : String → String → Option String) (B : String)
      (fs : List String),
      incCount (zipFilesEvents up B fs) = fs.length ∧
      errLogCount (zipFilesEvents up B fs) = zipFails up B fs) ∧
    (∀ (B path : String) (l : List SrcEntry),
      incCount (entriesEvents B path l) = entriesSucc l ∧
      errLogCount (entriesEvents B path l) = entriesErrC l) ∧
    (∀ inp : ZipInput, inp.loadErr = none → zipPlan inp ≠ [] →
      (zipFinal inp).progress = zipAttempted inp (zipPlan inp)) := by
  refine ⟨?_, ?_, ?_⟩
  · intro up B fs
    exact ⟨zipFilesEvents_inc up B fs, zipFilesEvents_err up B fs⟩
  · intro B path l
    exact ⟨entriesEvents_inc B path l, entriesEvents_err B path l⟩
  · intro inp hl hp
    exact (zipFinal_main inp hl hp).1

/-- Witness for C1: in a concrete ZIP run whose only upload fails, the final
processed counter still equals the attempted count. -/
theorem c1_failed_transfer_accounting_witness :
    (zipFinal c1zex).progress = zipAttempted c1zex (zipPlan c1zex) :=
  c1_failed_transfer_accounting.2.2 c1zex rfl (by decide)

def c3ex : LiveInput :=
  ⟨none, [⟨"b", false, none, [.file "a.png" none none]⟩],
    fun _ => some "permission denied"⟩

def c3zex : ZipInput :=
  ⟨none, [("b/x.png", false)], [],
    fun _ => some "permission denied", fun _ _ => none⟩

/-- C3, counterexample.  The claim states that in every mode a bucket
creation failing for a reason other than "already exists" logs an
Error-severity entry and skips all the bucket's objects.  In live mode
neither happens: here creation fails with "permission denied", yet the
bucket's object is still transferred (final progress 1) and the run log
contains no Error-severity entry at all. -/
theorem c3_counterexample :
    c3ex.createRes "b" = some "permission denied" ∧
    jsIncludes "permission denied" "already exists" = false ∧
    (liveFinal c3ex).progress = 1 ∧
    errEntries (liveFinal c3ex).logs = 0 := by
  have he : entriesEvents "b" "" [SrcEntry.file "a.png" none none] =
      fileEvents "a.png" none none := by
    simp [entriesEvents, joinPath]
  refine ⟨rfl, by decide, ?_, ?_⟩ <;>
  · unfold liveFinal
    rw [liveRunEvents_main c3ex rfl (by decide)]
    simp only [c3ex, liveBucketsEvents, liveBucketEvents, bucketRootEvents,
      he]
    decide

/-- C3, amended.  In archive (ZIP) mode the claim holds: an "already exists"
creation failure is treated as success (the bucket's files are all fed to
the upload loop), any other creation failure logs one Error entry, skips
that bucket's objects, and processing continues with the remaining buckets
(the run's processed count is the sum over non-skipped buckets).  In live
mode, however, every creation failure — "already exists" or not — is caught
and ignored: the run's counters and Error-entry count are identical under
any creation oracle, and a non-"already exists" failure produces only an
Info-severity entry. -/
theorem c3_ensure_bucket :
    (∀ (inp : ZipInput) (B : String) (files : List String) (msg : String),
      inp.createRes B = some msg →
      jsIncludes msg "already exists" = true →
      incCount (zipBucketEvents inp B files) = files.length) ∧
    (∀ (inp : ZipInput) (B : String) (files : List String) (msg : String),
      B ∉ inp.existing → inp.createRes B = some msg →
      jsIncludes msg "already exists" = false →
      incCount (zipBucketEvents inp B files) = 0 ∧
      errLogCount (zipBucketEvents inp B files) = 1) ∧
    (∀ (inp : ZipInput) (plan : List (String × List String)),
      incCount (zipBucketsEvents inp plan) = zipAttempted inp plan) ∧
    (∀ (br : Option String) (bs : List LiveBucket)
      (c₁ c₂ : String → Option String),
      (liveFinal ⟨br, bs, c₁⟩).progress =
        (liveFinal ⟨br, bs, c₂⟩).progress ∧
      (liveFinal ⟨br, bs, c₁⟩).totalItems =
        (liveFinal ⟨br, bs, c₂⟩).totalItems ∧
      errEntries (liveFinal ⟨br, bs, c₁⟩).logs =
        errEntries (liveFinal ⟨br, bs, c₂⟩).logs) ∧
    (∀ (c : String → Option String) (b : LiveBucket) (msg : String),
      c b.name = some msg → jsIncludes msg "already exists" = false →
      (⟨"Bucket " ++ b.name ++ " already exists, continuing...", Sev.info⟩ :
        LogEntry) ∈ logsOf (liveBucketEvents c b)) := by
  refine ⟨?_, ?_, ?_, ?_, ?_⟩
  · intro inp B files msg hc hi
    rw [zipBucketEvents_inc]
    have hskip : zipBucketSkipped inp B = false := by
      unfold zipBucketSkipped
      rw [hc]
      simp [hi]
    rw [hskip]
    simp
  · intro inp B files msg hB hc hi
    have hskip : zipBucketSkipped inp B = true := by
      unfold zipBucketSkipped
      rw [hc]
      simp [hi, hB]
    rw [zipBucketEvents_inc, zipBucketEvents_err, hskip]
    simp
  · intro inp plan
    exact zipBucketsEvents_inc inp plan
  · intro br bs c₁ c₂
    exact liveFinal_createRes_indep br bs c₁ c₂
  · intro c b msg hc hi
    exact liveCreate_info_mem c b msg hc hi

/-- Witness for C3: a concrete ZIP bucket whose creation fails with
"permission denied" transfers none of its files and logs exactly one Error
entry. -/
theorem c3_ensure_bucket_witness :
    incCount (zipBucketEvents c3zex "b" ["x.png"]) = 0 ∧
    errLogCount (zipBucketEvents c3zex "b" ["x.png"]) = 1 :=
  c3_ensure_bucket.2.1 c3zex "b" ["x.png"] "permission denied"
    (by decide) (by decide) (by decide)

def c4zex : ZipInput :=
  ⟨none, [("b/x.png", false), ("b/y.png", false)], ["b"], fun _ => none,
    fun _ rel => if rel = "x.png" then some "boom" else none⟩

def c4lex : LiveInput :=
  ⟨none,
    [⟨"b", false, none,
      [.file "x.png" none (some "boom"), .file "y.png" none none]⟩],
    fun _ => none⟩

/-- C4.  A run in which only object-scoped transfer errors occur terminates
in the Completed state: in archive mode (readable archive, non-empty plan,
no bucket skipped by a creation failure) the final state has no error
message, carries the success summary, and its processed count equals the
full plan size — every object was attempted whatever the upload oracle did;
in live mode (bucket listing succeeds, every directory listing succeeds) the
final state likewise has no error message and the success summary, and the
successful transfers plus the Error-logged failures add up to every file of
the source tree. -/
theorem c4_object_failures_still_complete :
    (∀ inp : ZipInput, inp.loadErr = none → zipPlan inp ≠ [] →
      (∀ B ∈ (zipPlan inp).map Prod.fst, zipBucketSkipped inp B = false) →
      (zipFinal inp).errMsg = none ∧
      (zipFinal inp).succMsg = some (zipDoneMsg inp) ∧
      (zipFinal inp).progress = zipTotal inp) ∧
    (∀ inp : LiveInput, inp.bucketsRes = none →
      inp.buckets.isEmpty = false → bucketsAllOk inp.buckets = true →
      (liveFinal inp).errMsg = none ∧
      (liveFinal inp).succMsg = some (liveDoneMsg inp) ∧
      (liveFinal inp).progress + errEntries (liveFinal inp).logs =
        bucketsFileC inp.buckets) := by
  constructor
  · intro inp hl hp hns
    obtain ⟨h1, _, h3, h4, _⟩ := zipFinal_main inp hl hp
    refine ⟨h3, h4, ?_⟩
    rw [h1, zipAttempted_full inp (zipPlan inp) hns]
    rfl
  · intro inp hb hne hok
    obtain ⟨h1, _, h3, h4, h5⟩ := liveFinal_main inp hb hne
    refine ⟨h3, h4, ?_⟩
    rw [h1, h5]
    exact buckets_ok_count inp.buckets hok

/-- Witness for C4: concrete runs in each mode where one of two objects
fails to transfer; both still complete with the success summary set and no
error message. -/
theorem c4_object_failures_still_complete_witness :
    ((zipFinal c4zex).errMsg = none ∧
      (zipFinal c4zex).succMsg = some (zipDoneMsg c4zex) ∧
      (zipFinal c4zex).progress = zipTotal c4zex) ∧
    ((liveFinal c4lex).errMsg = none ∧
      (liveFinal c4lex).succMsg = some (liveDoneMsg c4lex) ∧
      (liveFinal c4lex).progress + errEntries (liveFinal c4lex).logs =
        bucketsFileC c4lex.buckets) :=
  ⟨c4_object_failures_still_complete.1 c4zex rfl (by decide) (by decide),
   c4_object_failures_still_complete.2 c4lex rfl (by decide)
     (by simp [c4lex, bucketsAllOk, bucketAllOk, entriesAllOk])⟩

def c6zex : ZipInput :=
  ⟨none, [("b/x.png", false)], [], fun _ => none, fun _ _ => some "boom"⟩

/-- C6.  In every run the processed counter is monotonically non-decreasing
along the trace of observed states, and `processed ≤ total` holds at every
observed state in both modes; in archive mode `totalItems` is assigned once
— every observed state carries either the initial 0 or the final plan total,
and any state with nonzero progress already carries the plan total, fixed
before the first transfer and never changed afterwards. -/
theorem c6_progress_invariants :
    (∀ inp : ZipInput, ∀ s ∈ zipTrace inp, s.progress ≤ s.totalItems) ∧
    (∀ inp : ZipInput,
      List.Chain' (fun a b => a.progress ≤ b.progress) (zipTrace inp)) ∧
    (∀ inp : ZipInput, ∀ s ∈ zipTrace inp,
      s.totalItems = 0 ∨ s.totalItems = zipTotal inp) ∧
    (∀ inp : ZipInput, ∀ s ∈ zipTrace inp,
      0 < s.progress → s.totalItems = zipTotal inp) ∧
    (∀ inp : LiveInput, ∀ s ∈ liveTrace inp, s.progress ≤ s.totalItems) ∧
    (∀ inp : LiveInput,
      List.Chain' (fun a b => a.progress ≤ b.progress) (liveTrace inp)) := by
  refine ⟨?_, ?_, ?_, ?_, ?_, ?_⟩
  · intro inp s hs
    by_cases h : inp.loadErr = none ∧ zipPlan inp ≠ []
    · rcases zip_state_main_cases inp h.1 h.2 s hs with ⟨h1, h2⟩ | ⟨h1, h2⟩ <;>
        omega
    · obtain ⟨h1, h2⟩ := zip_abort_states inp h s hs
      omega
  · intro inp
    exact chain_progress_traceEvs (zipRunEvents inp) initSt
  · intro inp s hs
    by_cases h : inp.loadErr = none ∧ zipPlan inp ≠ []
    · rcases zip_state_main_cases inp h.1 h.2 s hs with ⟨h1, h2⟩ | ⟨h1, h2⟩
      · exact Or.inl h2
      · exact Or.inr h1
    · exact Or.inl (zip_abort_states inp h s hs).2
  · intro inp s hs hpos
    by_cases h : inp.loadErr = none ∧ zipPlan inp ≠ []
    · rcases zip_state_main_cases inp h.1 h.2 s hs with ⟨h1, h2⟩ | ⟨h1, h2⟩
      · omega
      · exact h1
    · have := (zip_abort_states inp h s hs).1
      omega
  · intro inp
    exact live_state_inv inp
  · intro inp
    exact chain_progress_traceEvs (liveRunEvents inp) initSt

/-- Witness for C6: `processed ≤ total` applied at the final observed state
of a concrete archive run with a failing upload. -/
theorem c6_progress_invariants_witness :
    (zipFinal c6zex).progress ≤ (zipFinal c6zex).totalItems :=
  c6_progress_invariants.1 c6zex (zipFinal c6zex) (by decide)

def c8ex : ZipInput :=
  ⟨some "corrupt archive", [], [], fun _ => none, fun _ _ => none⟩

/-- C8.  If the archive blob is unreadable or no bucket structure can be
inferred from it, the run ends with an error message set and no success
summary, and the processed counter is 0 at every observed state of the
trace — no upload is attempted before the fatal abort. -/
theorem c8_fatal_abort :
    ∀ inp : ZipInput, inp.loadErr.isSome ∨ zipPlan inp = [] →
    (zipFinal inp).errMsg.isSome ∧
    (zipFinal inp).succMsg = none ∧
    ∀ s ∈ zipTrace inp, s.progress = 0 := by
  intro inp h
  have habort : ¬(inp.loadErr = none ∧ zipPlan inp ≠ []) := by
    rintro ⟨hl, hp⟩
    rcases h with h | h
    · rw [hl] at h
      simp at h
    · exact hp h
  refine ⟨?_, ?_, fun s hs => (zip_abort_states inp habort s hs).1⟩
  · rcases hl : inp.loadErr with _ | m
    · have hp : zipPlan inp = [] := by
        rcases h with h | h
        · rw [hl] at h
          simp at h
        · exact h
      rw [(zip_abort_errMsg inp).2 hl hp]
      rfl
    · rw [(zip_abort_errMsg inp).1 m hl]
      rfl
  · obtain ⟨_, _, _, hsucc⟩ := zip_abort_measures inp habort
    unfold zipFinal
    rw [succMsg_runEvs, hsucc]
    rfl

/-- Witness for C8: a concrete unreadable archive aborts with an error set,
no success summary, and zero progress in the final state. -/
theorem c8_fatal_abort_witness :
    (zipFinal c8ex).errMsg.isSome ∧ (zipFinal c8ex).succMsg = none ∧
    (zipFinal c8ex).progress = 0 :=
  ⟨(c8_fatal_abort c8ex (Or.inl (by decide))).1,
   (c8_fatal_abort c8ex (Or.inl (by decide))).2.1,
   (c8_fatal_abort c8ex (Or.inl (by decide))).2.2 (zipFinal c8ex)
     (by decide)⟩

def c9ex : LiveInput :=
  ⟨none, [⟨"b", false, none, []⟩], fun _ => some "permission denied"⟩

/-- C9, counterexample.  The claim states that every caught error produces
at least one Error-severity log entry.  In this live run the destination's
`createBucket` fails with "permission denied"; the error is caught, yet the
complete run log contains zero Error-severity entries (the catch logs at
Info severity). -/
theorem c9_counterexample :
    c9ex.createRes "b" = some "permission denied" ∧
    jsIncludes "permission denied" "already exists" = false ∧
    errEntries (liveFinal c9ex).logs = 0 := by
  refine ⟨rfl, by decide, ?_⟩
  unfold liveFinal
  rw [liveRunEvents_main c9ex rfl (by decide)]
  simp only [c9ex, liveBucketsEvents, liveBucketEvents, bucketRootEvents]
  decide

def c9wb : LiveBucket := ⟨"b", false, none, []⟩

def c9zex : ZipInput :=
  ⟨some "corrupt blob", [], [], fun _ => none, fun _ _ => none⟩

def c9sx : ZipInput :=
  ⟨none, [("b/x.png", false)], [],
    fun _ => some "Bucket already exists", fun _ _ => none⟩

/-- C9, amended.  Within a run, the Error-severity log entries account
exactly for the caught errors, with two exceptions at bucket creation: in a
non-aborted archive run they equal the per-object transfer failures plus one
per bucket skipped by a non-"already exists" creation failure, while an
"already exists" creation failure is caught producing no log entry at all;
in a non-aborted live run they equal the per-object transfer failures plus
the listing failures, live bucket-creation failures never producing an Error
entry (a non-"already exists" failure yields only an Info-severity entry);
and an aborted run in either mode logs exactly one Error entry for its
run-level fault. -/
theorem c9_error_logging :
    (∀ inp : ZipInput, inp.loadErr = none → zipPlan inp ≠ [] →
      errEntries (zipFinal inp).logs = zipErrLogs inp (zipPlan inp)) ∧
    (∀ inp : LiveInput, inp.bucketsRes = none →
      inp.buckets.isEmpty = false →
      errEntries (liveFinal inp).logs = bucketsErrC inp.buckets) ∧
    (∀ inp : ZipInput, inp.loadErr.isSome ∨ zipPlan inp = [] →
      errEntries (zipFinal inp).logs = 1) ∧
    (∀ (inp : LiveInput) (m : String), inp.bucketsRes = some m →
      errEntries (liveFinal inp).logs = 1) ∧
    (∀ (c : String → Option String) (b : LiveBucket) (msg : String),
      c b.name = some msg → jsIncludes msg "already exists" = false →
      (⟨"Bucket " ++ b.name ++ " already exists, continuing...", Sev.info⟩ :
        LogEntry) ∈ logsOf (liveBucketEvents c b)) ∧
    (∀ (inp : ZipInput) (B : String) (files : List String) (msg : String),
      B ∉ inp.existing → inp.createRes B = some msg →
      jsIncludes msg "already exists" = true →
      logsOf (zipBucketEvents inp B files) =
        ⟨"\nProcessing bucket: " ++ B, Sev.info⟩ ::
          logsOf (zipFilesEvents inp.up B files)) := by
  refine ⟨?_, ?_, ?_, ?_, ?_, ?_⟩
  · intro inp hl hp
    exact (zipFinal_main inp hl hp).2.2.2.2
  · intro inp hb hne
    exact (liveFinal_main inp hb hne).2.2.2.2
  · intro inp h
    have hcase : (∃ m, inp.loadErr = some m) ∨
        (inp.loadErr = none ∧ zipPlan inp = []) := by
      rcases hl : inp.loadErr with _ | m
      · right
        refine ⟨rfl, ?_⟩
        rcases h with h | h
        · rw [hl] at h
          simp at h
        · exact h
      · exact Or.inl ⟨m, rfl⟩
    unfold zipFinal
    rw [logs_runEvs, errEntries_append, errEntries_logsOf]
    rcases hcase with ⟨m, hl⟩ | ⟨hl, hp⟩
    · rw [zipRunEvents_load inp m hl]
      rfl
    · rw [zipRunEvents_emptyPlan inp hl hp]
      unfold rootLogEvents
      cases rootFolderOf inp.entries <;>
        simp [errEntries, initSt, errLogCount, isErrLog, errLogCount_append]
  · intro inp m hb
    unfold liveFinal
    rw [logs_runEvs, errEntries_append, errEntries_logsOf,
      liveRunEvents_abort inp m hb]
    rfl
  · intro c b msg hc hi
    exact liveCreate_info_mem c b msg hc hi
  · intro inp B files msg hB hc hi
    unfold zipBucketEvents
    rw [if_neg hB]
    simp only [hc]
    rw [if_pos hi]
    simp [logsOf]

/-- Witness for C9: a concrete aborted archive run logs exactly one Error
entry; a concrete live creation failure yields the Info-severity
"already exists, continuing..." entry; and a concrete archive-mode
"already exists" creation failure adds no log entry beyond the bucket
header and the uploads. -/
theorem c9_error_logging_witness :
    errEntries (zipFinal c9zex).logs = 1 ∧
    (⟨"Bucket " ++ c9wb.name ++ " already exists, continuing...",
      Sev.info⟩ : LogEntry) ∈
      logsOf (liveBucketEvents (fun _ => some "permission denied") c9wb) ∧
    logsOf (zipBucketEvents c9sx "b" ["x.png"]) =
      ⟨"\nProcessing bucket: " ++ "b", Sev.info⟩ ::
        logsOf (zipFilesEvents c9sx.up "b" ["x.png"]) :=
  ⟨c9_error_logging.2.2.1 c9zex (Or.inl (by decide)),
   c9_error_logging.2.2.2.2.1 (fun _ => some "permission denied") c9wb
     "permission denied" rfl (by decide),
   c9_error_logging.2.2.2.2.2 c9sx "b" ["x.png"] "Bucket already exists"
     (by decide) rfl (by decide)⟩

def c10ex : ZipInput :=
  ⟨none, [("b/x.png", false)], [], fun _ => none, fun _ _ => none⟩

/-- C10.  In archive (ZIP) mode every `createBucket` request carries
`isPublic = false` — no input can make archive mode request a public
bucket — and every planned bucket that is not already present at the
destination does get a private creation request. -/
theorem c10_zip_buckets_private :
    (∀ (inp : ZipInput) (n : String) (pb : Bool),
      Ev.createCall n pb ∈ zipRunEvents inp → pb = false) ∧
    (∀ (inp : ZipInput) (B : String) (files : List String),
      inp.loadErr = none → (B, files) ∈ zipPlan inp → B ∉ inp.existing →
      Ev.createCall B false ∈ zipRunEvents inp) := by
  constructor
  · intro inp n pb h
    exact (createCall_mem_zipRunEvents h).1
  · intro inp B files hl hm hB
    exact createCall_covers_zipRunEvents hl hm hB

/-- Witness for C10: in a concrete archive run the planned bucket "b",
absent at the destination, is requested with the private flag. -/
theorem c10_zip_buckets_private_witness :
    Ev.createCall "b" false ∈ zipRunEvents c10ex :=
  c10_zip_buckets_private.2 c10ex "b" ["x.png"] rfl (by decide) (by decide)
